import Mathlib

/-!
Shallow embedding of the browsercompat compatibility diagnostic engine.

Sources embedded (translated from the TypeScript sources):
- src/Version.ts            : versions, ranges, parsing and formatting
- src/CompatData.ts         : support statements and issue derivation
- src/GuardExprChecker.ts   : guard expression and chain recognition
- src/Walker.ts             : guard-stack suppression test
- src/ClientCompatIssueList.ts and src/ClientCompatChecker.ts : issue index

Strings are modelled as lists of characters.
-/

set_option maxRecDepth 4096

abbrev Str := List Char

/-- The constant _VERSION_MAX from Version.ts (999999999). -/
def VERSION_MAX : Nat := 999999999

/-- A version, as in Version.ts: a (major, minor) pair. The class invariant
(established by Version.create) is that both components are at most
VERSION_MAX, except for the distinguished value Version.infinite. -/
structure Version where
  major : Nat
  minor : Nat
deriving DecidableEq, Repr

namespace Version

/-- Version.minVal : new Version(0, 0). -/
def minVal : Version := ⟨0, 0⟩

/-- Version.maxVal : new Version(MAX, MAX). -/
def maxVal : Version := ⟨VERSION_MAX, VERSION_MAX⟩

/-- Version.infinite : new Version(MAX + 1, 0); compares greater than maxVal. -/
def infinite : Version := ⟨VERSION_MAX + 1, 0⟩

/-- Version.create(major, minor): validates that both components are in
[0, VERSION_MAX]; an out-of-range argument throws a RangeError (modelled as
none). The arguments are JS numbers; parse results may be negative, hence
Int arguments. -/
def create (mjr mnr : Int) : Option Version :=
  if 0 ≤ mjr ∧ mjr ≤ (VERSION_MAX : Int) ∧ 0 ≤ mnr ∧ mnr ≤ (VERSION_MAX : Int) then
    some ⟨mjr.toNat, mnr.toNat⟩
  else
    none

/-- Version.compare(v1, v2): lexicographic comparison on (major, minor),
returning -1, 0 or 1. -/
def compare (v1 v2 : Version) : Int :=
  if v1.major ≠ v2.major then
    (if v1.major < v2.major then -1 else 1)
  else if v1.minor ≠ v2.minor then
    (if v1.minor < v2.minor then -1 else 1)
  else
    0

/-- Version.min(v1, v2). -/
def minV (v1 v2 : Version) : Version :=
  if compare v1 v2 < 0 then v1 else v2

/-- Version.max(v1, v2). -/
def maxV (v1 v2 : Version) : Version :=
  if compare v1 v2 > 0 then v1 else v2

end Version

/-!  ## Issue model (Issue.ts) -/

/-- The IssueKind const enum from Issue.ts. -/
inductive IssueKind where
  | NOT_SUPPORTED
  | NEEDS_PREFIX
  | NEEDS_ALT_NAME
  | NEEDS_FLAG
  | IS_PARTIAL_IMPL
  | NOTE
deriving DecidableEq, Repr

/-- ClientInfo (ClientInfo.ts): a client name with a version range. The
derived description string is omitted here (it is presentation-only and is
recovered from rangeToString). -/
structure ClientInfo where
  name : Str
  displayName : Str
  minVersion : Version
  maxVersion : Version
deriving DecidableEq, Repr

/-- Issue (Issue.ts). The constructor's optional arguments default to
null / Version.minVal / Version.infinite at every call site that omits them. -/
structure Issue where
  featureName : Str
  clientInfo : ClientInfo
  kind : IssueKind
  altOrPrefix : Option Str
  note : Option Str
  url : Option Str
  startVersion : Version
  endVersion : Version
deriving DecidableEq, Repr

/-!  ## Support statements (CompatData.ts, after preprocessing)

After _preprocessMDNCompatData has run, version_added and version_removed
are Version objects.  The caveat fields keep their raw JS shapes, which the
derivation code tests for truthiness:
- prefix / alternative_name / notes: strings (absent = undefined); a present
  empty string is falsy, so truthiness is nonemptiness;
- flags: an array (absent = undefined); any present array is truthy;
- partial_implementation: tested with === true. -/
structure SupportStatement where
  version_added : Version
  version_removed : Version
  pfx : Option Str
  altName : Option Str
  flags : Option (List Unit)
  partImpl : Bool
  notes : Option Str
deriving DecidableEq, Repr

/-- JS truthiness of an optional string (undefined and "" are falsy). -/
def strTruthy : Option Str → Bool
  | none => false
  | some s => !s.isEmpty

/-- JS truthiness of an optional array (any present array is truthy). -/
def arrTruthy : Option (List Unit) → Bool
  | none => false
  | some _ => true

/-- The support value for one client in a __compat support block: either a
single support statement or an array of them. -/
inductive SupportEntry where
  | single (s : SupportStatement)
  | array (l : List SupportStatement)
deriving DecidableEq, Repr

/-- A __compat statement: per-client support plus an optional mdn_url. -/
structure CompatStatement where
  support : List (Str × SupportEntry)
  mdn_url : Option Str
deriving DecidableEq, Repr

/-- Association-list lookup, modelling JS object property access
(compatStatement.support[clientInfo.name]). -/
def assocLookup {α : Type} : List (Str × α) → Str → Option α
  | [], _ => none
  | (k, v) :: rest, key => if k = key then some v else assocLookup rest key

/-- ClientCompatCheckerFlags: a bitset with IGNORE_NOTES and
IGNORE_PARTIAL_IMPL members.  The enum declaration file is not part of the
sources provided; modelled from the spec as a two-bit bitset. -/
def FLAG_IGNORE_NOTES : Nat := 1

/-- The IGNORE_PARTIAL_IMPL bit of ClientCompatCheckerFlags. -/
def FLAG_IGNORE_PARTIAL_IMPL : Nat := 2

/-!  ## Issue derivation (CompatData.ts) -/

/-- _makeNotSupportedIssue(name, propName, clientInfo): an Issue with kind
NOT_SUPPORTED and all defaulted constructor arguments. -/
def makeNotSupportedIssue (name : Str) (propName : Option Str) (ci : ClientInfo) : Issue :=
  { featureName := match propName with
      | some p => name ++ [ '.' ] ++ p
      | none => name
    clientInfo := ci
    kind := IssueKind.NOT_SUPPORTED
    altOrPrefix := none
    note := none
    url := none
    startVersion := Version.minVal
    endVersion := Version.infinite }

/-- _getIssueKindAndPrefixFromSupportStatement: priority-ordered selection of
the issue kind (and the prefix or alternative name, when applicable). -/
def getIssueKindAndPrefixFromSupportStatement
    (s : SupportStatement) : Option IssueKind × Option Str :=
  if strTruthy s.pfx then
    (some IssueKind.NEEDS_PREFIX, s.pfx)
  else if strTruthy s.altName then
    (some IssueKind.NEEDS_ALT_NAME, s.altName)
  else if arrTruthy s.flags then
    (some IssueKind.NEEDS_FLAG, none)
  else if s.partImpl = true then
    (some IssueKind.IS_PARTIAL_IMPL, none)
  else if strTruthy s.notes then
    (some IssueKind.NOTE, none)
  else
    (none, none)

/-- _shouldDiscardIssueBasedOnFlags(issue, flags). -/
def shouldDiscardIssueBasedOnFlags (issue : Issue) (flags : Nat) : Bool :=
  if Nat.land flags FLAG_IGNORE_NOTES ≠ 0 ∧ issue.kind = IssueKind.NOTE then
    true
  else if Nat.land flags FLAG_IGNORE_PARTIAL_IMPL ≠ 0 ∧ issue.kind = IssueKind.IS_PARTIAL_IMPL then
    true
  else
    false

/-- One step of the global-replace of the /<[^>]+>/ regex: if a tag match
starts at a given '<', the match is dropped; otherwise scanning resumes at
the next character. -/
def stripTags : Str → Str
  | [] => []
  | '<' :: rest =>
      match h : rest.dropWhile (· ≠ '>') with
      | '>' :: after =>
          if rest.takeWhile (· ≠ '>') = [] then '<' :: stripTags rest
          else stripTags after
      | _ => '<' :: stripTags rest
  | c :: rest => c :: stripTags rest
termination_by s => s.length
decreasing_by
  · simp only [List.length_cons]
    omega
  · simp only [List.length_cons]
    have hlen : ∀ (l : List Char), (l.dropWhile (· ≠ '>')).length ≤ l.length := by
      intro l
      induction l with
      | nil => simp
      | cons c cs ih =>
          simp only [List.dropWhile]
          split
          · exact Nat.le_trans ih (Nat.le_succ _)
          · simp
    have h2 := hlen rest
    rw [h] at h2
    simp only [List.length_cons] at h2
    omega
  · simp only [List.length_cons]
    omega
  · simp only [List.length_cons]
    omega

/-- Replacement of the &lt; / &gt; / &amp; entities
(the second regex of _stripHTMLFromNotes). -/
def replaceEntities : Str → Str
  | '&' :: 'l' :: 't' :: ';' :: rest => '<' :: replaceEntities rest
  | '&' :: 'g' :: 't' :: ';' :: rest => '>' :: replaceEntities rest
  | '&' :: 'a' :: 'm' :: 'p' :: ';' :: rest => '&' :: replaceEntities rest
  | c :: rest => c :: replaceEntities rest
  | [] => []

/-- _stripHTMLFromNotes(str). -/
def stripHTMLFromNotes (s : Str) : Str :=
  replaceEntities (stripTags s)

/-- _makeIssueFromSupportStatement(typeName, propName, url, clientInfo,
flags, supportStatement): the single priority-selected issue for one support
statement, or none. -/
def makeIssueFromSupportStatement
    (typeName : Str) (propName : Option Str) (url : Option Str)
    (ci : ClientInfo) (flags : Nat) (s : SupportStatement) : Option Issue :=
  let versionAdded := s.version_added
  let versionRemoved := s.version_removed
  if Version.compare ci.maxVersion versionAdded < 0
      ∨ Version.compare ci.minVersion versionRemoved ≥ 0 then
    none
  else
    let noteText : Option Str :=
      if strTruthy s.notes then (s.notes.map stripHTMLFromNotes) else none
    match getIssueKindAndPrefixFromSupportStatement s with
    | (none, _) => none
    | (some issueKind, altOrPrefix) =>
        let featureName : Str := match propName with
          | some p => typeName ++ [ '.' ] ++ p
          | none => typeName
        let issue : Issue :=
          { featureName := featureName
            clientInfo := ci
            kind := issueKind
            altOrPrefix := altOrPrefix
            note := noteText
            url := url
            startVersion := versionAdded
            endVersion := versionRemoved }
        if shouldDiscardIssueBasedOnFlags issue flags then none else some issue

/-- _checkIfSupportedVersion(clientInfo, support, withNoIssues): full-range
support test for a single statement. -/
def checkIfSupportedVersion
    (ci : ClientInfo) (s : SupportStatement) (withNoIssues : Bool) : Bool :=
  if Version.compare ci.minVersion s.version_added < 0
      ∨ Version.compare ci.maxVersion s.version_removed ≥ 0 then
    false
  else if !withNoIssues then
    true
  else
    !(strTruthy s.pfx || strTruthy s.altName || arrTruthy s.flags || s.partImpl)

/-- The sweep loop of _checkVersionRangeIntersection, from index 1 onward,
carrying the accumulated lastRemoved version. -/
def checkVersionRangeLoop
    (vMin vMax : Version) : Version → List SupportStatement → Bool
  | lastRemoved, [] => Version.compare vMax lastRemoved < 0
  | lastRemoved, s :: rest =>
      let nextAdded := s.version_added
      if Version.compare nextAdded lastRemoved > 0
          ∧ Version.compare vMin nextAdded < 0
          ∧ Version.compare vMax lastRemoved ≥ 0 then
        false
      else
        checkVersionRangeLoop vMin vMax
          (Version.maxV lastRemoved s.version_removed) rest

/-- _checkVersionRangeIntersection(clientInfo, sortedSupportStatements). -/
def checkVersionRangeIntersection
    (ci : ClientInfo) (arr : List SupportStatement) : Bool :=
  match arr with
  | [] => false
  | first :: rest =>
      if Version.compare ci.minVersion first.version_added < 0 then
        false
      else
        checkVersionRangeLoop ci.minVersion ci.maxVersion first.version_removed rest

/-- _checkIfSupportedVersionArray(clientInfo, supportStatements,
withNoIssues). -/
def checkIfSupportedVersionArray
    (ci : ClientInfo) (supportStatements : List SupportStatement)
    (withNoIssues : Bool) : Bool :=
  let stmts :=
    if withNoIssues then
      supportStatements.filter (fun x =>
        !(strTruthy x.pfx || strTruthy x.altName || arrTruthy x.flags || x.partImpl))
    else
      supportStatements
  match stmts with
  | [] => false
  | [s] => checkIfSupportedVersion ci s false
  | _ => checkVersionRangeIntersection ci stmts

/-- _getIssuesFromSingleSupportStatement: issues produced (appended) for a
single (non-array) support statement. -/
def getIssuesFromSingleSupportStatement
    (ci : ClientInfo) (typeName : Str) (propName : Option Str) (url : Option Str)
    (s : SupportStatement) (flags : Nat) : List Issue :=
  let issue : Option Issue :=
    if checkIfSupportedVersion ci s false then
      makeIssueFromSupportStatement typeName propName url ci flags s
    else
      some (makeNotSupportedIssue typeName propName ci)
  match issue with
  | none => []
  | some i => [i]

/-- _getIssuesFromArraySupportStatement: issues produced (appended) for an
array support statement. -/
def getIssuesFromArraySupportStatement
    (ci : ClientInfo) (typeName : Str) (propName : Option Str) (url : Option Str)
    (supportStatements : List SupportStatement) (flags : Nat) : List Issue :=
  if !checkIfSupportedVersionArray ci supportStatements false then
    [makeNotSupportedIssue typeName propName ci]
  else
    let notesOnly : Bool := checkIfSupportedVersionArray ci supportStatements true
    supportStatements.filterMap (fun s =>
      match makeIssueFromSupportStatement typeName propName url ci flags s with
      | none => none
      | some issue =>
          if notesOnly ∧ issue.kind ≠ IssueKind.NOTE then none else some issue)

/-- _getIssuesFromCompatStatement(clientInfo, typeName, propName,
compatStatement, flags, issues): the issues appended for one feature node
and one client. -/
def getIssuesFromCompatStatement
    (ci : ClientInfo) (typeName : Str) (propName : Option Str)
    (compatStatement : Option CompatStatement) (flags : Nat) : List Issue :=
  match compatStatement with
  | none => []
  | some compat =>
      match assocLookup compat.support ci.name with
      | none => [makeNotSupportedIssue typeName propName ci]
      | some entry =>
          let url : Option Str := compat.mdn_url
          match entry with
          | SupportEntry.array l =>
              getIssuesFromArraySupportStatement ci typeName propName url l flags
          | SupportEntry.single s =>
              getIssuesFromSingleSupportStatement ci typeName propName url s flags

/-!  ## Version strings (Version.ts) -/

/-- The decimal digit character for a digit value below ten. -/
def digitChar (d : Nat) : Char := "0123456789".toList.getD d '0'

/-- Little-endian decimal digits, with explicit fuel (structural recursion;
the fuel is sufficient whenever it exceeds the number). -/
def natDigitsRevFuel : Nat → Nat → List Nat
  | 0, _ => []
  | fuel + 1, n => if n < 10 then [n] else n % 10 :: natDigitsRevFuel fuel (n / 10)

/-- Little-endian decimal digits of a natural number (always nonempty). -/
def natDigitsRev (n : Nat) : List Nat := natDigitsRevFuel (n + 1) n

/-- Decimal representation of a natural number, as produced by the JS
number-to-string conversion for the nonnegative integers stored in Version
components. -/
def numToChars (n : Nat) : Str := ((natDigitsRev n).reverse).map digitChar

/-- The whitespace characters skipped by JS parseInt. -/
def isWsChar (c : Char) : Bool := c = ' ' || c = '\t' || c = '\n' || c = '\r'

/-- Decimal digit test ('0'..'9'), as used by JS parseInt with radix 10. -/
def isDigitCh (c : Char) : Bool := 48 ≤ c.toNat && c.toNat ≤ 57

/-- Numeric value of a decimal digit character. -/
def charToDigit (c : Char) : Nat := c.toNat - 48

/-- Value of a string of decimal digits (most significant first). -/
def digitsToNat (s : Str) : Nat := s.foldl (fun a c => a * 10 + charToDigit c) 0

/-- The longest digit prefix of a string, as a number; none when there is no
leading digit (parseInt's NaN case). -/
def parseDigitsPrefix (s : Str) : Option Nat :=
  let ds := s.takeWhile isDigitCh
  if ds.isEmpty then none else some (digitsToNat ds)

/-- JS parseInt(str, 10): skip leading whitespace, accept an optional sign,
then parse the longest digit prefix; NaN (none) if there is none. -/
def parseIntJS (s : Str) : Option Int :=
  let t := s.dropWhile isWsChar
  match t with
  | [] => none
  | c :: rest =>
      if c = '-' then (parseDigitsPrefix rest).map (fun n => -(n : Int))
      else if c = '+' then (parseDigitsPrefix rest).map (fun n => (n : Int))
      else (parseDigitsPrefix (c :: rest)).map (fun n => (n : Int))

/-- Version._fromString(str, defaultMinorMax). -/
def Version.fromStringAux (s : Str) (defaultMinorMax : Bool) : Option Version :=
  let pre := s.takeWhile (· ≠ '.')
  let post := s.dropWhile (· ≠ '.')
  match post with
  | [] =>
      match parseIntJS s with
      | none => none
      | some mjr =>
          Version.create mjr (if defaultMinorMax then (VERSION_MAX : Int) else 0)
  | _ :: rest =>
      match parseIntJS pre, parseIntJS rest with
      | some mjr, some mnr => Version.create mjr mnr
      | _, _ => none

/-- Version.fromString(str). -/
def Version.fromString (s : Str) : Option Version := Version.fromStringAux s false

/-- Version.prototype.toString(): "major.minor". -/
def Version.toChars (v : Version) : Str :=
  numToChars v.major ++ [ '.' ] ++ numToChars v.minor

/-- _versionMajorRangeToString(startMajor, endMajor). -/
def versionMajorRangeToString (startMajor endMajor : Nat) : Str :=
  if startMajor = endMajor then numToChars startMajor
  else if startMajor = 0 then
    (if endMajor = VERSION_MAX then [ '*' ] else '<' :: '=' :: numToChars endMajor)
  else if endMajor = VERSION_MAX then '>' :: '=' :: numToChars startMajor
  else numToChars startMajor ++ [ '-' ] ++ numToChars endMajor

/-- Version.rangeToString(start, end). -/
def Version.rangeToString (start fin : Version) : Str :=
  if Version.compare start fin = 0 then start.toChars
  else if start.minor = 0 ∧ fin.minor = VERSION_MAX then
    versionMajorRangeToString start.major fin.major
  else if Version.compare start Version.minVal ≤ 0 then '<' :: '=' :: fin.toChars
  else if Version.compare fin Version.maxVal ≥ 0 then '>' :: '=' :: start.toChars
  else start.toChars ++ [ '-' ] ++ fin.toChars

/-- The body of Version.rangeFromString after the "*" test and before the
final inverted-range check: parses "a-b", "<=a", ">=a", a bare major, or an
exact "a.b". -/
def Version.rangeFromStringAux (s : Str) : Option (Version × Version) :=
  let pre := s.takeWhile (· ≠ '-')
  let post := s.dropWhile (· ≠ '-')
  match post with
  | _ :: rest =>
      match Version.fromStringAux pre false, Version.fromStringAux rest true with
      | some mn, some mx => some (mn, mx)
      | _, _ => none
  | [] =>
      if s.take 2 = [ '<', '=' ] then
        match Version.fromStringAux (s.drop 2) true with
        | some mx => some (Version.minVal, mx)
        | none => none
      else if s.take 2 = [ '>', '=' ] then
        match Version.fromStringAux (s.drop 2) false with
        | some mn => some (mn, Version.maxVal)
        | none => none
      else if s.all (· ≠ '.') then
        match parseIntJS s with
        | none => none
        | some mjrInt =>
            match Version.create mjrInt 0 with
            | none => none
            | some mn =>
                match Version.create (Int.ofNat mn.major) (Int.ofNat VERSION_MAX) with
                | none => none
                | some mx => some (mn, mx)
      else
        match Version.fromString s with
        | some v => some (v, v)
        | none => none

/-- Version.rangeFromString(str): parses "*", "a-b", "<=a", ">=a", a bare
major, or an exact "a.b"; RangeError (none) on malformed input or an
inverted range. -/
def Version.rangeFromString (s : Str) : Option (Version × Version) :=
  if s = [ '*' ] then some (Version.minVal, Version.maxVal)
  else
    match Version.rangeFromStringAux s with
    | none => none
    | some (mn, mx) =>
        if Version.compare mn mx > 0 then none else some (mn, mx)

/-!  ## Guard expressions (GuardExprChecker.ts)

The TypeScript AST is embedded as an inductive type carrying exactly the
node shapes the checker inspects; every other expression form is a
miscExpr leaf.  Symbols are opaque numeric tokens; the external type
checker (identifier and property resolution) is a parameter. -/

inductive JsBinOp where
  | eqeq
  | eqeqeq
  | bangEq
  | bangEqeq
  | inKw
  | ampAmp
  | barBar
  | otherOp
deriving DecidableEq, Repr

inductive Expr where
  | ident (name : Str)
  | strLit (s : Str)
  | nullLit
  | undefinedKw
  | propAccess (obj : Expr) (name : Str)
  | typeofE (e : Expr)
  | notE (e : Expr)
  | paren (e : Expr)
  | binary (op : JsBinOp) (l r : Expr)
  | miscExpr (tag : Nat)
deriving DecidableEq, Repr

/-- GuardExpression: operand, optionally resolved guarded symbol, polarity. -/
structure GuardExpression where
  operand : Expr
  guardedSymbol : Option Nat
  isNegated : Bool
deriving DecidableEq, Repr

/-- GuardExprChain: guard expressions chained by one logical operator. -/
structure GuardExprChain where
  expressions : List GuardExpression
  operator : JsBinOp
  isNegated : Bool
deriving DecidableEq, Repr

/-- The GuardExpression-or-GuardExprChain result of evaluateChain. -/
inductive GuardEvalResult where
  | single (g : GuardExpression)
  | chain (c : GuardExprChain)
deriving DecidableEq, Repr

/-- The external ts.TypeChecker capability used by GuardExprChecker:
getSymbolAtLocation on an identifier, and getPropertyOfType on the apparent
type of a property-access / in-expression object. -/
structure TypeCheckerModel where
  resolveIdent : Str → Option Nat
  resolveProp : Expr → Str → Option Nat

/-- _unwrapParentheses(expr). -/
def unwrapParenthesesE : Expr → Expr
  | Expr.paren e => unwrapParenthesesE e
  | e => e

/-- _unwrapNegations(expr): the innermost non-negation operand and the
parity of the leading logical-NOT operators. -/
def unwrapNegationsE : Expr → Expr × Bool
  | Expr.paren e => unwrapNegationsE e
  | Expr.notE e =>
      let r := unwrapNegationsE e
      (r.1, !r.2)
  | e => (e, false)

/-- _isUndefinedExpression(expr). -/
def isUndefinedExpressionE : Expr → Bool
  | Expr.undefinedKw => true
  | Expr.ident n => n = "undefined".toList
  | _ => false

/-- _isStringLiteralOrNullOrUndefined(expr). -/
def isStringLiteralOrNullOrUndefinedE : Expr → Bool
  | Expr.strLit _ => true
  | Expr.nullLit => true
  | Expr.undefinedKw => true
  | Expr.ident n => n = "undefined".toList || n = "null".toList
  | _ => false

/-- _isPositiveEqualityOperator(op). -/
def isPositiveEqualityOperator (op : JsBinOp) : Bool :=
  op = JsBinOp.eqeq || op = JsBinOp.eqeqeq

/-- _isNegativeEqualityOperator(op). -/
def isNegativeEqualityOperator (op : JsBinOp) : Bool :=
  op = JsBinOp.bangEq || op = JsBinOp.bangEqeq

/-- _isStrictEqualityOperator(op). -/
def isStrictEqualityOperator (op : JsBinOp) : Bool :=
  op = JsBinOp.eqeqeq || op = JsBinOp.bangEqeq

/-- The mutable evaluation state of the GuardExprChecker instance
(m_operand, m_propertyObj, m_propertyName, m_isTypeof, m_isNegative). -/
structure GuardEvalState where
  operand : Expr
  propertyObj : Option Expr
  propertyName : Option Str
  isTypeof : Bool
  isNegative : Bool

/-- _evaluateTypeofCheckExpression(operand, type, isNotEquals). -/
def evaluateTypeofCheckExpression
    (operand : Expr) (tyName : Str) (isNotEquals : Bool)
    (st : GuardEvalState) : GuardEvalState :=
  if tyName = "undefined".toList then
    { st with operand := unwrapParenthesesE operand
              isNegative := !isNotEquals
              isTypeof := true }
  else if !isNotEquals then
    { st with operand := unwrapParenthesesE operand
              isNegative := false
              isTypeof := true }
  else
    st

/-- _evaluateEqualityExpression(left, right, isNotEquals, isStrict). -/
def evaluateEqualityExpression
    (left right : Expr) (isNotEquals isStrict : Bool)
    (st : GuardEvalState) : GuardEvalState :=
  let p := if isStringLiteralOrNullOrUndefinedE left then (right, left) else (left, right)
  let l := p.1
  let r := p.2
  if isUndefinedExpressionE r || (!isStrict && (r == Expr.nullLit)) then
    { st with operand := unwrapParenthesesE l, isNegative := !isNotEquals }
  else
    match l, r with
    | Expr.typeofE operand, Expr.strLit t =>
        evaluateTypeofCheckExpression operand t isNotEquals st
    | _, _ => st

/-- _evaluateBinaryExpression(), acting on the current state whose operand
is a binary expression. -/
def evaluateBinaryExpression (st : GuardEvalState) : GuardEvalState :=
  match st.operand with
  | Expr.binary op l r =>
      let left := unwrapParenthesesE l
      let right := unwrapParenthesesE r
      match op, left with
      | JsBinOp.inKw, Expr.strLit propName =>
          { st with propertyObj := some right, propertyName := some propName }
      | _, _ =>
          let isExprWithEquals := isPositiveEqualityOperator op
          let isExprWithNotEquals := isNegativeEqualityOperator op
          let isStrict := isStrictEqualityOperator op
          if isExprWithEquals || isExprWithNotEquals then
            evaluateEqualityExpression left right isExprWithNotEquals isStrict st
          else
            st
  | _ => st

/-- _tryResolveSymbol(). -/
def tryResolveSymbol (tc : TypeCheckerModel) (st : GuardEvalState) : Option Nat :=
  match st.propertyName with
  | some n =>
      match st.propertyObj with
      | some obj => tc.resolveProp obj n
      | none => none
  | none =>
      if st.isTypeof then
        match st.operand with
        | Expr.ident name => tc.resolveIdent name
        | _ => none
      else
        none

/-- The state computed by the first half of GuardExprChecker.evaluate: the
field resets, the binary-expression analysis, and the leading-NOT toggle
(everything up to the mustBePosOrNeg check).  This part does not consult the
type checker. -/
def evalGuardState (expr : Expr) : GuardEvalState :=
  let u := unwrapNegationsE expr
  let expr1 := u.1
  let hasLeadingNot := u.2
  let st0 : GuardEvalState :=
    { operand := expr1, propertyObj := none, propertyName := none
      isTypeof := false, isNegative := false }
  let st1 := match expr1 with
    | Expr.binary _ _ _ => evaluateBinaryExpression st0
    | _ => st0
  if hasLeadingNot then { st1 with isNegative := !st1.isNegative } else st1

/-- The property-access fallback of GuardExprChecker.evaluate: when no
property name was recorded and the operand is a property access, record its
object and name. -/
def applyPropertyAccessFallback (st : GuardEvalState) : GuardEvalState :=
  match st.propertyName, st.operand with
  | none, Expr.propAccess obj name =>
      { st with propertyObj := some obj, propertyName := some name }
  | _, _ => st

/-- GuardExprChecker.evaluate(expr, mustBePosOrNeg). -/
def evaluate (tc : TypeCheckerModel) (expr : Expr)
    (mustBePosOrNeg : Option Bool) : GuardExpression :=
  let st2 := evalGuardState expr
  if mustBePosOrNeg = some st2.isNegative then
    { operand := st2.operand, guardedSymbol := none, isNegated := st2.isNegative }
  else
    let st3 := applyPropertyAccessFallback st2
    { operand := st3.operand
      guardedSymbol := tryResolveSymbol tc st3
      isNegated := st3.isNegative }

/-- GuardExpression.getSymbolResolveTarget(). -/
def getSymbolResolveTarget (g : GuardExpression) : Option Expr :=
  match g.guardedSymbol with
  | none => none
  | some _ =>
      match g.operand with
      | Expr.propAccess obj _ => some obj
      | Expr.binary JsBinOp.inKw _ r => some r
      | _ => none

/-- _evaluateChainOperands(expr, op, guardExprs): flattens contiguous uses
of the chain operator, evaluating every leaf with the required polarity of
the operator (positive for a logical AND, negative for a logical OR). -/
def evaluateChainOperands (tc : TypeCheckerModel) (op : JsBinOp) : Expr → List GuardExpression
  | Expr.paren e => evaluateChainOperands tc op e
  | Expr.binary op2 l r =>
      if op2 = op then
        evaluateChainOperands tc op l ++ evaluateChainOperands tc op r
      else
        [evaluate tc (Expr.binary op2 l r) (some (op == JsBinOp.ampAmp))]
  | e => [evaluate tc e (some (op == JsBinOp.ampAmp))]

/-- GuardExprChecker.evaluateChain(expr). -/
def evaluateChain (tc : TypeCheckerModel) (expr : Expr) : GuardEvalResult :=
  let u := unwrapNegationsE expr
  let innerExpr := u.1
  let hasLeadingNot := u.2
  match innerExpr with
  | Expr.binary op l r =>
      if op = JsBinOp.ampAmp ∨ op = JsBinOp.barBar then
        GuardEvalResult.chain
          ⟨evaluateChainOperands tc op (Expr.binary op l r), op, hasLeadingNot⟩
      else
        GuardEvalResult.single (evaluate tc expr none)
  | _ => GuardEvalResult.single (evaluate tc expr none)

/-- The leaf expressions of a same-operator chain, as described by the spec:
flatten recursively only contiguous uses of the chain's operator, keeping a
sub-expression using any other operator as one opaque leaf. -/
def chainLeavesSpec (op : JsBinOp) : Expr → List Expr
  | Expr.paren e => chainLeavesSpec op e
  | Expr.binary op2 l r =>
      if op2 = op then
        chainLeavesSpec op l ++ chainLeavesSpec op r
      else
        [Expr.binary op2 l r]
  | e => [e]

/-!  ## Guard-stack suppression (Walker.ts) -/

/-- A ts.Symbol as used for suppression: only its valueDeclaration identity
(declaration site) matters; declaration sites are opaque numeric tokens. -/
structure TsSymbol where
  valueDeclaration : Nat
deriving DecidableEq, Repr

/-- _canIssuesBeSuppressedByGuards(issues): true when some issue has one of
the four existence kinds. -/
def canIssuesBeSuppressedByGuards (issues : List Issue) : Bool :=
  issues.any (fun issue =>
    issue.kind == IssueKind.NOT_SUPPORTED
      || issue.kind == IssueKind.NEEDS_PREFIX
      || issue.kind == IssueKind.NEEDS_ALT_NAME
      || issue.kind == IssueKind.NEEDS_FLAG)

/-- The scan loop of _checkEnclosingGuards: entries are visited from the
top of the stack (the end of the array) downward. -/
def scanGuardStackFromTop (valueDecl : Nat) : List TsSymbol → Bool
  | [] => false
  | s :: below =>
      if s.valueDeclaration = valueDecl then true
      else scanGuardStackFromTop valueDecl below

/-- Walker._checkEnclosingGuards(issues, symbol): whether the candidate
issue list is suppressed by the guard stack. -/
def checkEnclosingGuards
    (guardStack : List TsSymbol) (issues : List Issue) (symbol : TsSymbol) : Bool :=
  if !canIssuesBeSuppressedByGuards issues then false
  else scanGuardStackFromTop symbol.valueDeclaration guardStack.reverse

/-!  ## Issue index (ClientCompatIssueList.ts, ClientCompatChecker.ts) -/

/-- A stored map value: one issue is stored unwrapped, several as an array
(Issue | Issue[] in the source). -/
inductive StoredIssues where
  | one (i : Issue)
  | many (l : List Issue)
deriving DecidableEq, Repr

/-- Map.set: replace the value under an existing key, else add the entry. -/
def mapSet {α : Type} : List (Str × α) → Str → α → List (Str × α)
  | [], key, v => [(key, v)]
  | (k, w) :: rest, key, v =>
      if k = key then (k, v) :: rest else (k, w) :: mapSet rest key v

/-- ClientCompatIssueList: issue maps for globals, properties and events. -/
structure ClientCompatIssueList where
  globalMap : List (Str × StoredIssues)
  propertiesMap : List (Str × List (Str × StoredIssues))
  eventsMap : List (Str × List (Str × StoredIssues))
deriving DecidableEq, Repr

/-- A freshly constructed ClientCompatIssueList. -/
def emptyIssueList : ClientCompatIssueList := ⟨[], [], []⟩

/-- ClientCompatIssueList.setIssuesForGlobal(name, issues). -/
def setIssuesForGlobal
    (lst : ClientCompatIssueList) (name : Str) (issues : List Issue) :
    ClientCompatIssueList :=
  match issues with
  | [] => lst
  | [i] => { lst with globalMap := mapSet lst.globalMap name (StoredIssues.one i) }
  | l => { lst with globalMap := mapSet lst.globalMap name (StoredIssues.many l) }

/-- ClientCompatIssueList.setIssuesForPropertyOrEvent(typeName, propName,
isEvent, issues). -/
def setIssuesForPropertyOrEvent
    (lst : ClientCompatIssueList) (typeName propName : Str) (isEvent : Bool)
    (issues : List Issue) : ClientCompatIssueList :=
  match issues with
  | [] => lst
  | _ =>
      let stored := match issues with
        | [i] => StoredIssues.one i
        | l => StoredIssues.many l
      let dict := if isEvent then lst.eventsMap else lst.propertiesMap
      let typeDict := (assocLookup dict typeName).getD []
      let dict2 := mapSet dict typeName (mapSet typeDict propName stored)
      if isEvent then { lst with eventsMap := dict2 }
      else { lst with propertiesMap := dict2 }

/-- Appending a stored map value to the caller's issue array. -/
def pushStored (issues : List Issue) (found : StoredIssues) : List Issue :=
  match found with
  | StoredIssues.one i => issues ++ [i]
  | StoredIssues.many l => issues ++ l

/-- ClientCompatIssueList.getIssuesForGlobal(name, issues): appends the
stored issues for the name, if any, to the caller's array. -/
def getIssuesForGlobal
    (lst : ClientCompatIssueList) (name : Str) (issues : List Issue) : List Issue :=
  match assocLookup lst.globalMap name with
  | none => issues
  | some found => pushStored issues found

/-- ClientCompatIssueList.getIssuesForPropertyOrEvent(typeName, propName,
isEvent, issues). -/
def getIssuesForPropertyOrEvent
    (lst : ClientCompatIssueList) (typeName propName : Str) (isEvent : Bool)
    (issues : List Issue) : List Issue :=
  let dict := if isEvent then lst.eventsMap else lst.propertiesMap
  match assocLookup dict typeName with
  | none => issues
  | some typeDict =>
      match assocLookup typeDict propName with
      | none => issues
      | some found => pushStored issues found

/-- ClientCompatChecker: the per-client issue lists built by
CompatData.getIssues. -/
structure ClientCompatChecker where
  clientIssueLists : List ClientCompatIssueList

/-- ClientCompatChecker.checkGlobal(name, issues): appends all issues found
for the name and reports whether any were found. -/
def checkGlobal (checker : ClientCompatChecker) (name : Str)
    (issues : List Issue) : List Issue × Bool :=
  let newIssues :=
    checker.clientIssueLists.foldl (fun acc lst => getIssuesForGlobal lst name acc) issues
  (newIssues, newIssues.length != issues.length)

/-- ClientCompatChecker.checkPropertyOrEvent(typeName, propName, isEvent,
issues). -/
def checkPropertyOrEvent (checker : ClientCompatChecker)
    (typeName propName : Str) (isEvent : Bool)
    (issues : List Issue) : List Issue × Bool :=
  let newIssues :=
    checker.clientIssueLists.foldl
      (fun acc lst => getIssuesForPropertyOrEvent lst typeName propName isEvent acc) issues
  (newIssues, newIssues.length != issues.length)

/-!  ## Spec-side definitions used by refinement claims -/

/-- The coverage sweep as worded by the spec (claim C2), for the statements
after the first, carrying the accumulated lastRemoved version. -/
def specCoversLoop (tMin tMax : Version) : Version → List SupportStatement → Bool
  | lastRemoved, [] => Version.compare tMax lastRemoved < 0
  | lastRemoved, s :: rest =>
      if Version.compare s.version_added lastRemoved > 0
          ∧ Version.compare tMin s.version_added < 0
          ∧ Version.compare tMax lastRemoved ≥ 0 then
        false
      else
        specCoversLoop tMin tMax (Version.maxV lastRemoved s.version_removed) rest

/-- covers(target, stmts) as worded by the spec (claim C2): fail immediately
when target.min precedes the first addedAt, then sweep; succeed iff
target.max < lastRemoved after the sweep. -/
def specCovers (tMin tMax : Version) (stmts : List SupportStatement) : Bool :=
  match stmts with
  | [] => false
  | first :: rest =>
      if Version.compare tMin first.version_added < 0 then false
      else specCoversLoop tMin tMax first.version_removed rest

/-!  ## Concrete example data used by witnesses and counterexamples -/

/-- A version with minor 0, written major-only in the data source. -/
def mkV (n : Nat) : Version := ⟨n, 0⟩

/-- A caveat-free support statement with the given validity window. -/
def cleanStmt (a r : Version) : SupportStatement :=
  ⟨a, r, none, none, none, false, none⟩

/-- A client target covering versions 2.0 through 5.0. -/
def ciT25 : ClientInfo := ⟨"a".toList, "A".toList, mkV 2, mkV 5⟩

/-- A client target covering versions 4.0 through 5.0. -/
def ciT45 : ClientInfo := ⟨"a".toList, "A".toList, mkV 4, mkV 5⟩

/-- A client target covering versions 3.0 through 5.0. -/
def ciT35 : ClientInfo := ⟨"a".toList, "A".toList, mkV 3, mkV 5⟩

/-- Support added at 3.0, never removed. -/
def stmtAdded3 : SupportStatement := cleanStmt (mkV 3) Version.infinite

/-- Support statement: [added=2, removed=4]. -/
def stmtA2R4 : SupportStatement := cleanStmt (mkV 2) (mkV 4)

/-- Support statement: [added=3, removed=6]. -/
def stmtA3R6 : SupportStatement := cleanStmt (mkV 3) (mkV 6)

/-- Support statement: [added=2, removed=3]. -/
def stmtA2R3 : SupportStatement := cleanStmt (mkV 2) (mkV 3)

/-- Support statement: [added=4, removed=6]. -/
def stmtA4R6 : SupportStatement := cleanStmt (mkV 4) (mkV 6)

/-- A statement carrying both a prefix and a note, valid from 1.0 onward. -/
def stmtPrefixNote : SupportStatement :=
  ⟨mkV 1, Version.infinite, some ("webkit".toList), none, none, false,
    some ("advice".toList)⟩

/-- A type checker model that resolves nothing. -/
def tcTrivial : TypeCheckerModel := ⟨fun _ => none, fun _ _ => none⟩

/-!  ## Helper lemmas -/

/-- Version.compare is nonpositive exactly for lexicographic ≤. -/
theorem Version.compare_nonpos_iff (a b : Version) :
    Version.compare a b ≤ 0 ↔
      (a.major < b.major ∨ (a.major = b.major ∧ a.minor ≤ b.minor)) := by
  unfold Version.compare
  split_ifs <;> simp_all <;> omega

/-- Version.compare is negative exactly for lexicographic <. -/
theorem Version.compare_neg_iff (a b : Version) :
    Version.compare a b < 0 ↔
      (a.major < b.major ∨ (a.major = b.major ∧ a.minor < b.minor)) := by
  unfold Version.compare
  split_ifs <;> simp_all <;> omega

/-- Version.compare is zero exactly on equal versions. -/
theorem Version.compare_eq_zero_iff (a b : Version) :
    Version.compare a b = 0 ↔ a = b := by
  obtain ⟨am, an⟩ := a
  obtain ⟨bm, bn⟩ := b
  unfold Version.compare
  simp only [Version.mk.injEq]
  split_ifs <;> simp_all

/-- The priority selection never yields NOT_SUPPORTED. -/
theorem getIssueKind_ne_notSupported (s : SupportStatement) (k : IssueKind) (alt : Option Str)
    (h : getIssueKindAndPrefixFromSupportStatement s = (some k, alt)) :
    k ≠ IssueKind.NOT_SUPPORTED := by
  unfold getIssueKindAndPrefixFromSupportStatement at h
  split_ifs at h <;> simp only [Prod.mk.injEq, Option.some.injEq] at h <;>
    first
      | (obtain ⟨rfl, -⟩ := h; simp)
      | simp_all

/-- An issue produced from a support statement carries the priority-selected
kind of that statement. -/
theorem makeIssue_kind_eq_priority
    (tn : Str) (pn : Option Str) (url : Option Str) (ci : ClientInfo) (flags : Nat)
    (s : SupportStatement) (i : Issue)
    (h : makeIssueFromSupportStatement tn pn url ci flags s = some i) :
    (getIssueKindAndPrefixFromSupportStatement s).1 = some i.kind := by
  rcases hk : getIssueKindAndPrefixFromSupportStatement s with ⟨ok, alt⟩
  simp only [makeIssueFromSupportStatement, hk] at h
  cases ok with
  | none =>
      dsimp only at h
      simp at h
  | some k =>
      dsimp only at h
      split_ifs at h <;>
        first
          | (replace h := Option.some.inj h
             subst h
             rfl)
          | simp at h

/-- An issue produced from a support statement is never NOT_SUPPORTED. -/
theorem makeIssue_ne_notSupported
    (tn : Str) (pn : Option Str) (url : Option Str) (ci : ClientInfo) (flags : Nat)
    (s : SupportStatement) (i : Issue)
    (h : makeIssueFromSupportStatement tn pn url ci flags s = some i) :
    i.kind ≠ IssueKind.NOT_SUPPORTED := by
  have hp := makeIssue_kind_eq_priority tn pn url ci flags s i h
  rcases hq : getIssueKindAndPrefixFromSupportStatement s with ⟨ok, alt⟩
  rw [hq] at hp
  have hok : ok = some i.kind := hp
  rw [hok] at hq
  exact getIssueKind_ne_notSupported s i.kind alt hq

/-!  ## Claim C1 -/

/-- C1 counterexample: for the target [2.0, 5.0] and the single normalized
statement {addedAt = 3.0, removedAt = INFINITE} (no caveats), the code emits
a NOT_SUPPORTED issue although neither `target.max < addedAt` nor
`target.min ≥ removedAt` holds, refuting the claim's condition. -/
theorem claimC1_counterexample :
    getIssuesFromSingleSupportStatement ciT25 ("Foo".toList) none none stmtAdded3 0
        = [makeNotSupportedIssue ("Foo".toList) none ciT25]
    ∧ ¬(Version.compare ciT25.maxVersion stmtAdded3.version_added < 0
        ∨ Version.compare ciT25.minVersion stmtAdded3.version_removed ≥ 0) := by
  constructor
  · rfl
  · decide

/-- C1 (amended): for a single support statement, a NOT_SUPPORTED issue (and
nothing else) is emitted exactly when `target.min < addedAt` or
`target.max ≥ removedAt`; in every other case at most one issue is emitted
and it is never NOT_SUPPORTED. -/
theorem claimC1_single_statement_not_supported
    (ci : ClientInfo) (s : SupportStatement) (tn : Str) (pn : Option Str)
    (url : Option Str) (flags : Nat)
    (hrange : Version.compare ci.minVersion ci.maxVersion ≤ 0) :
    ((Version.compare ci.minVersion s.version_added < 0
        ∨ Version.compare ci.maxVersion s.version_removed ≥ 0) →
      getIssuesFromSingleSupportStatement ci tn pn url s flags
        = [makeNotSupportedIssue tn pn ci])
    ∧ (¬(Version.compare ci.minVersion s.version_added < 0
          ∨ Version.compare ci.maxVersion s.version_removed ≥ 0) →
      (getIssuesFromSingleSupportStatement ci tn pn url s flags).length ≤ 1
        ∧ ∀ i ∈ getIssuesFromSingleSupportStatement ci tn pn url s flags,
            i.kind ≠ IssueKind.NOT_SUPPORTED) := by
  constructor
  · intro hcond
    have hcheck : checkIfSupportedVersion ci s false = false := by
      unfold checkIfSupportedVersion
      simp [hcond]
    unfold getIssuesFromSingleSupportStatement
    rw [hcheck]
    rfl
  · intro hcond
    have hcheck : checkIfSupportedVersion ci s false = true := by
      unfold checkIfSupportedVersion
      simp [hcond]
    unfold getIssuesFromSingleSupportStatement
    rw [hcheck]
    simp only [if_true]
    cases hmi : makeIssueFromSupportStatement tn pn url ci flags s with
    | none => simp
    | some i =>
        refine ⟨by simp, ?_⟩
        intro j hj
        simp only [List.mem_singleton] at hj
        subst hj
        exact makeIssue_ne_notSupported tn pn url ci flags s j hmi

/-- C1 witness: the amended theorem applied to the target [3.0, 5.0] and the
statement {addedAt = 3.0, removedAt = INFINITE}. -/
theorem claimC1_witness :
    (getIssuesFromSingleSupportStatement ciT35 ("Foo".toList) none none stmtAdded3 0).length ≤ 1
    ∧ ∀ i ∈ getIssuesFromSingleSupportStatement ciT35 ("Foo".toList) none none stmtAdded3 0,
        i.kind ≠ IssueKind.NOT_SUPPORTED :=
  (claimC1_single_statement_not_supported ciT35 stmtAdded3 ("Foo".toList) none none 0
    (by decide)).2 (by decide)

/-!  ## Claim C2 -/

/-- The sweep loop of _checkVersionRangeIntersection computes the loop worded
by the spec. -/
theorem checkVersionRangeLoop_eq_specCoversLoop
    (v1 v2 : Version) (l : List SupportStatement) :
    ∀ lr, checkVersionRangeLoop v1 v2 lr l = specCoversLoop v1 v2 lr l := by
  induction l with
  | nil => intro lr; rfl
  | cons s rest ih =>
      intro lr
      simp only [checkVersionRangeLoop, specCoversLoop]
      split_ifs
      · rfl
      · exact ih _

/-- C2: on every non-empty statement list, the code's coverage test
(_checkIfSupportedVersionArray without filtering) computes exactly the sweep
worded by the spec, and the three concrete examples of the claim hold:
entries [2,4],[3,6] cover target [2,5]; entries [2,3],[4,6] do not cover
[2,5] but do cover [4,5]. -/
theorem claimC2_coverage_sweep :
    (∀ (ci : ClientInfo) (stmts : List SupportStatement), stmts ≠ [] →
        checkIfSupportedVersionArray ci stmts false
          = specCovers ci.minVersion ci.maxVersion stmts)
    ∧ checkIfSupportedVersionArray ciT25 [stmtA2R4, stmtA3R6] false = true
    ∧ checkIfSupportedVersionArray ciT25 [stmtA2R3, stmtA4R6] false = false
    ∧ checkIfSupportedVersionArray ciT45 [stmtA2R3, stmtA4R6] false = true := by
  refine ⟨?_, by decide, by decide, by decide⟩
  intro ci stmts hne
  cases stmts with
  | nil => exact absurd rfl hne
  | cons a rest =>
      cases rest with
      | nil =>
          unfold checkIfSupportedVersionArray specCovers checkIfSupportedVersion specCoversLoop
          by_cases h1 : Version.compare ci.minVersion a.version_added < 0
          · simp [h1]
          · by_cases h2 : Version.compare ci.maxVersion a.version_removed ≥ 0
            · simp [h1, h2]
            · simp [h1, h2]
              omega
      | cons b rest2 =>
          have hred : checkIfSupportedVersionArray ci (a :: b :: rest2) false
              = checkVersionRangeIntersection ci (a :: b :: rest2) := rfl
          rw [hred]
          unfold checkVersionRangeIntersection specCovers
          dsimp only
          split_ifs with h1
          · rfl
          · exact checkVersionRangeLoop_eq_specCoversLoop _ _ _ _

/-- C2 witness: the sweep characterization applied to the gap example
[2,3],[4,6] against the target [2,5]. -/
theorem claimC2_witness :
    checkIfSupportedVersionArray ciT25 [stmtA2R3, stmtA4R6] false
      = specCovers ciT25.minVersion ciT25.maxVersion [stmtA2R3, stmtA4R6] :=
  claimC2_coverage_sweep.1 ciT25 [stmtA2R3, stmtA4R6] (by decide)

/-!  ## Claim C3 -/

/-- With a zero flag set, no issue is discarded. -/
theorem shouldDiscard_flags_zero (i : Issue) : shouldDiscardIssueBasedOnFlags i 0 = false := by
  have h1 : Nat.land 0 FLAG_IGNORE_NOTES = 0 := rfl
  have h2 : Nat.land 0 FLAG_IGNORE_PARTIAL_IMPL = 0 := rfl
  unfold shouldDiscardIssueBasedOnFlags
  rw [h1, h2]
  simp

/-- C3: for an array support statement (with no suppression flags):
if raw coverage fails, the output is exactly one NOT_SUPPORTED issue;
if raw and caveat-filtered coverage both succeed, only NOTE issues are
emitted; if the filtered coverage fails, the output is the list of
per-statement priority-selected issues, where a statement yields an issue
exactly when its own interval intersects the target and its priority kind
is non-empty. -/
theorem claimC3_array_statement_issues
    (ci : ClientInfo) (tn : Str) (pn : Option Str) (url : Option Str)
    (stmts : List SupportStatement) :
    (checkIfSupportedVersionArray ci stmts false = false →
      getIssuesFromArraySupportStatement ci tn pn url stmts 0
        = [makeNotSupportedIssue tn pn ci])
    ∧ (checkIfSupportedVersionArray ci stmts false = true →
        checkIfSupportedVersionArray ci stmts true = true →
        ∀ i ∈ getIssuesFromArraySupportStatement ci tn pn url stmts 0,
          i.kind = IssueKind.NOTE)
    ∧ (checkIfSupportedVersionArray ci stmts false = true →
        checkIfSupportedVersionArray ci stmts true = false →
        getIssuesFromArraySupportStatement ci tn pn url stmts 0
          = stmts.filterMap (makeIssueFromSupportStatement tn pn url ci 0)
        ∧ ∀ s ∈ stmts,
            (makeIssueFromSupportStatement tn pn url ci 0 s).map Issue.kind
              = if Version.compare ci.maxVersion s.version_added ≥ 0
                    ∧ Version.compare ci.minVersion s.version_removed < 0
                then (getIssueKindAndPrefixFromSupportStatement s).1
                else none) := by
  refine ⟨?_, ?_, ?_⟩
  · intro hraw
    unfold getIssuesFromArraySupportStatement
    rw [hraw]
    rfl
  · intro hraw hfilt
    intro i hi
    unfold getIssuesFromArraySupportStatement at hi
    rw [hraw, hfilt] at hi
    simp only [Bool.not_true, Bool.false_eq_true, if_false, List.mem_filterMap] at hi
    obtain ⟨s, hs, hmk⟩ := hi
    revert hmk
    cases hm : makeIssueFromSupportStatement tn pn url ci 0 s with
    | none => simp
    | some j =>
        simp only []
        split_ifs with hcond
        · simp
        · intro hji
          replace hji := Option.some.inj hji
          subst hji
          simp only [true_and] at hcond
          simpa using hcond
  · intro hraw hfilt
    constructor
    · unfold getIssuesFromArraySupportStatement
      rw [hraw, hfilt]
      simp only [Bool.not_true, Bool.false_eq_true, if_false]
      apply List.filterMap_congr
      intro s _
      cases hm : makeIssueFromSupportStatement tn pn url ci 0 s with
      | none => simp
      | some j => simp
    · intro s _
      have hint : (Version.compare ci.maxVersion s.version_added < 0
            ∨ Version.compare ci.minVersion s.version_removed ≥ 0)
          ↔ ¬(Version.compare ci.maxVersion s.version_added ≥ 0
            ∧ Version.compare ci.minVersion s.version_removed < 0) := by
        omega
      rcases hk : getIssueKindAndPrefixFromSupportStatement s with ⟨ok, alt⟩
      simp only [makeIssueFromSupportStatement, hk]
      by_cases hc : Version.compare ci.maxVersion s.version_added ≥ 0
          ∧ Version.compare ci.minVersion s.version_removed < 0
      · rw [if_neg (by omega), if_pos hc]
        cases ok with
        | none => simp
        | some k =>
            dsimp only
            rw [if_neg (by rw [shouldDiscard_flags_zero]; simp)]
            simp
      · rw [if_pos (by omega), if_neg hc]
        simp

/-- C3 witness: the raw-coverage-failure case applied to the gap example
[2,3],[4,6] against the target [2,5]. -/
theorem claimC3_witness :
    getIssuesFromArraySupportStatement ciT25 ("Foo".toList) none none [stmtA2R3, stmtA4R6] 0
      = [makeNotSupportedIssue ("Foo".toList) none ciT25] :=
  (claimC3_array_statement_issues ciT25 ("Foo".toList) none none [stmtA2R3, stmtA4R6]).1
    (by decide)

/-!  ## Claim C4 -/

/-- C4: the issue kind of a support statement is selected by strict
priority (prefix, then alternative name, then flags, then partial
implementation, then note, else nothing); an applying statement produces at
most one issue carrying that kind; a statement with both a prefix and a
note yields exactly one NEEDS_PREFIX issue and no NOTE issue. -/
theorem claimC4_priority_selection :
    (∀ s : SupportStatement, strTruthy s.pfx = true →
        (getIssueKindAndPrefixFromSupportStatement s).1 = some IssueKind.NEEDS_PREFIX)
    ∧ (∀ s : SupportStatement, strTruthy s.pfx = false → strTruthy s.altName = true →
        (getIssueKindAndPrefixFromSupportStatement s).1 = some IssueKind.NEEDS_ALT_NAME)
    ∧ (∀ s : SupportStatement, strTruthy s.pfx = false → strTruthy s.altName = false →
        arrTruthy s.flags = true →
        (getIssueKindAndPrefixFromSupportStatement s).1 = some IssueKind.NEEDS_FLAG)
    ∧ (∀ s : SupportStatement, strTruthy s.pfx = false → strTruthy s.altName = false →
        arrTruthy s.flags = false → s.partImpl = true →
        (getIssueKindAndPrefixFromSupportStatement s).1 = some IssueKind.IS_PARTIAL_IMPL)
    ∧ (∀ s : SupportStatement, strTruthy s.pfx = false → strTruthy s.altName = false →
        arrTruthy s.flags = false → s.partImpl = false → strTruthy s.notes = true →
        (getIssueKindAndPrefixFromSupportStatement s).1 = some IssueKind.NOTE)
    ∧ (∀ s : SupportStatement, strTruthy s.pfx = false → strTruthy s.altName = false →
        arrTruthy s.flags = false → s.partImpl = false → strTruthy s.notes = false →
        (getIssueKindAndPrefixFromSupportStatement s).1 = none)
    ∧ (∀ (tn : Str) (pn : Option Str) (url : Option Str) (ci : ClientInfo)
          (s : SupportStatement) (i : Issue),
        makeIssueFromSupportStatement tn pn url ci 0 s = some i →
        (getIssueKindAndPrefixFromSupportStatement s).1 = some i.kind)
    ∧ ((getIssuesFromSingleSupportStatement ciT35 ("Foo".toList) none none
          stmtPrefixNote 0).map Issue.kind = [IssueKind.NEEDS_PREFIX]) := by
  refine ⟨?_, ?_, ?_, ?_, ?_, ?_, ?_, by decide⟩
  · intro s h1
    unfold getIssueKindAndPrefixFromSupportStatement
    simp [h1]
  · intro s h1 h2
    unfold getIssueKindAndPrefixFromSupportStatement
    simp [h1, h2]
  · intro s h1 h2 h3
    unfold getIssueKindAndPrefixFromSupportStatement
    simp [h1, h2, h3]
  · intro s h1 h2 h3 h4
    unfold getIssueKindAndPrefixFromSupportStatement
    simp [h1, h2, h3, h4]
  · intro s h1 h2 h3 h4 h5
    unfold getIssueKindAndPrefixFromSupportStatement
    simp [h1, h2, h3, h4, h5]
  · intro s h1 h2 h3 h4 h5
    unfold getIssueKindAndPrefixFromSupportStatement
    simp [h1, h2, h3, h4, h5]
  · intro tn pn url ci s i h
    exact makeIssue_kind_eq_priority tn pn url ci 0 s i h

/-- C4 witness: the first priority rule applied to the prefix-and-note
statement. -/
theorem claimC4_witness :
    (getIssueKindAndPrefixFromSupportStatement stmtPrefixNote).1
      = some IssueKind.NEEDS_PREFIX :=
  claimC4_priority_selection.1 stmtPrefixNote (by decide)

/-!  ## Claim C10 -/

/-- C10: a feature node without a __compat statement yields no issues; a
compat statement whose support map has no entry for the client yields
exactly one NOT_SUPPORTED issue for that client. -/
theorem claimC10_missing_client_entry :
    (∀ (ci : ClientInfo) (tn : Str) (pn : Option Str) (flags : Nat),
        getIssuesFromCompatStatement ci tn pn none flags = [])
    ∧ (∀ (ci : ClientInfo) (tn : Str) (pn : Option Str) (flags : Nat)
          (compat : CompatStatement),
        assocLookup compat.support ci.name = none →
        getIssuesFromCompatStatement ci tn pn (some compat) flags
          = [makeNotSupportedIssue tn pn ci]) := by
  constructor
  · intro ci tn pn flags
    rfl
  · intro ci tn pn flags compat hmiss
    unfold getIssuesFromCompatStatement
    dsimp only
    rw [hmiss]

/-- C10 witness: a compat statement with an empty support map, checked for
the client "a". -/
theorem claimC10_witness :
    getIssuesFromCompatStatement ciT25 ("Foo".toList) none
        (some ⟨[], none⟩) 0
      = [makeNotSupportedIssue ("Foo".toList) none ciT25] :=
  claimC10_missing_client_entry.2 ciT25 ("Foo".toList) none 0 ⟨[], none⟩ (by rfl)

/-!  ## Claim C7 -/

/-- The stack scan finds a matching declaration site iff one exists. -/
theorem scanGuardStackFromTop_iff_mem (valueDecl : Nat) (l : List TsSymbol) :
    scanGuardStackFromTop valueDecl l = true
      ↔ ∃ s ∈ l, s.valueDeclaration = valueDecl := by
  induction l with
  | nil => simp [scanGuardStackFromTop]
  | cons s rest ih =>
      unfold scanGuardStackFromTop
      by_cases h : s.valueDeclaration = valueDecl
      · simp [h]
      · simp [h, ih]

/-- The suppressibility test holds iff some issue has an existence kind. -/
theorem canIssuesBeSuppressed_iff (issues : List Issue) :
    canIssuesBeSuppressedByGuards issues = true
      ↔ ∃ i ∈ issues,
          (i.kind = IssueKind.NOT_SUPPORTED ∨ i.kind = IssueKind.NEEDS_PREFIX
            ∨ i.kind = IssueKind.NEEDS_ALT_NAME ∨ i.kind = IssueKind.NEEDS_FLAG) := by
  unfold canIssuesBeSuppressedByGuards
  rw [List.any_eq_true]
  constructor
  · rintro ⟨i, hi, hk⟩
    refine ⟨i, hi, ?_⟩
    revert hk
    cases i.kind <;> simp
  · rintro ⟨i, hi, hk⟩
    refine ⟨i, hi, ?_⟩
    revert hk
    cases i.kind <;> simp

/-- C7: when no issue in the candidate list has an existence kind
(NOT_SUPPORTED, NEEDS_PREFIX, NEEDS_ALT_NAME, NEEDS_FLAG), the list is never
suppressed; otherwise the whole list is suppressed exactly when some guard
stack entry has the same declaration site as the candidate symbol. -/
theorem claimC7_suppression
    (guardStack : List TsSymbol) (issues : List Issue) (symbol : TsSymbol) :
    ((∀ i ∈ issues,
        i.kind ≠ IssueKind.NOT_SUPPORTED ∧ i.kind ≠ IssueKind.NEEDS_PREFIX
          ∧ i.kind ≠ IssueKind.NEEDS_ALT_NAME ∧ i.kind ≠ IssueKind.NEEDS_FLAG) →
      checkEnclosingGuards guardStack issues symbol = false)
    ∧ ((∃ i ∈ issues,
          (i.kind = IssueKind.NOT_SUPPORTED ∨ i.kind = IssueKind.NEEDS_PREFIX
            ∨ i.kind = IssueKind.NEEDS_ALT_NAME ∨ i.kind = IssueKind.NEEDS_FLAG)) →
      (checkEnclosingGuards guardStack issues symbol = true
        ↔ ∃ entry ∈ guardStack,
            entry.valueDeclaration = symbol.valueDeclaration)) := by
  constructor
  · intro hnone
    have hcan : canIssuesBeSuppressedByGuards issues = false := by
      rw [← Bool.not_eq_true, canIssuesBeSuppressed_iff]
      rintro ⟨i, hi, hk⟩
      obtain ⟨h1, h2, h3, h4⟩ := hnone i hi
      rcases hk with h | h | h | h <;> simp_all
    unfold checkEnclosingGuards
    rw [hcan]
    rfl
  · intro hsome
    have hcan : canIssuesBeSuppressedByGuards issues = true :=
      (canIssuesBeSuppressed_iff issues).2 hsome
    unfold checkEnclosingGuards
    rw [hcan]
    simp only [Bool.not_true, Bool.false_eq_true, if_false]
    rw [scanGuardStackFromTop_iff_mem]
    constructor
    · rintro ⟨s, hs, hds⟩
      exact ⟨s, List.mem_reverse.1 hs, hds⟩
    · rintro ⟨s, hs, hds⟩
      exact ⟨s, List.mem_reverse.2 hs, hds⟩

/-- C7 witness: a NOT_SUPPORTED issue for declaration site 0 is suppressed
under a stack containing that site. -/
theorem claimC7_witness :
    checkEnclosingGuards [⟨1⟩, ⟨0⟩] [makeNotSupportedIssue ("A".toList) none ciT25] ⟨0⟩ = true :=
  (claimC7_suppression [⟨1⟩, ⟨0⟩] [makeNotSupportedIssue ("A".toList) none ciT25] ⟨0⟩).2
    (by refine ⟨makeNotSupportedIssue ("A".toList) none ciT25, by simp, Or.inl rfl⟩)
    |>.2 ⟨⟨0⟩, by simp, rfl⟩

/-!  ## Claim C9 -/

/-- A property/event lookup miss leaves the caller's array unchanged
(helper for C9). -/
theorem getIssuesForPropertyOrEvent_miss
    (lst : ClientCompatIssueList) (tn pn : Str) (ev : Bool) (issues : List Issue)
    (hmiss : assocLookup (if ev then lst.eventsMap else lst.propertiesMap) tn = none
      ∨ ∃ td, assocLookup (if ev then lst.eventsMap else lst.propertiesMap) tn = some td
          ∧ assocLookup td pn = none) :
    getIssuesForPropertyOrEvent lst tn pn ev issues = issues := by
  unfold getIssuesForPropertyOrEvent
  dsimp only
  rcases hmiss with h | ⟨td, h1, h2⟩
  · rw [h]
  · rw [h1]
    dsimp only
    rw [h2]

/-- C9: an unknown feature name or (type, member, isEvent) triple appends
nothing to the caller's output array, and checkGlobal / checkPropertyOrEvent
return false with the issues array unchanged. -/
theorem claimC9_lookup_misses :
    (∀ (lst : ClientCompatIssueList) (name : Str) (issues : List Issue),
        assocLookup lst.globalMap name = none →
        getIssuesForGlobal lst name issues = issues)
    ∧ (∀ (lst : ClientCompatIssueList) (tn pn : Str) (ev : Bool) (issues : List Issue),
        (assocLookup (if ev then lst.eventsMap else lst.propertiesMap) tn = none
          ∨ ∃ td, assocLookup (if ev then lst.eventsMap else lst.propertiesMap) tn = some td
              ∧ assocLookup td pn = none) →
        getIssuesForPropertyOrEvent lst tn pn ev issues = issues)
    ∧ (∀ (checker : ClientCompatChecker) (name : Str) (issues : List Issue),
        (∀ lst ∈ checker.clientIssueLists, assocLookup lst.globalMap name = none) →
        checkGlobal checker name issues = (issues, false))
    ∧ (∀ (checker : ClientCompatChecker) (tn pn : Str) (ev : Bool) (issues : List Issue),
        (∀ lst ∈ checker.clientIssueLists,
          assocLookup (if ev then lst.eventsMap else lst.propertiesMap) tn = none
            ∨ ∃ td, assocLookup (if ev then lst.eventsMap else lst.propertiesMap) tn = some td
                ∧ assocLookup td pn = none) →
        checkPropertyOrEvent checker tn pn ev issues = (issues, false)) := by
  refine ⟨?_, ?_, ?_, ?_⟩
  · intro lst name issues hmiss
    unfold getIssuesForGlobal
    rw [hmiss]
  · intro lst tn pn ev issues hmiss
    exact getIssuesForPropertyOrEvent_miss lst tn pn ev issues hmiss
  · intro checker name issues hall
    have hfold : checker.clientIssueLists.foldl
        (fun acc lst => getIssuesForGlobal lst name acc) issues = issues := by
      obtain ⟨lists⟩ := checker
      simp only at hall ⊢
      induction lists generalizing issues with
      | nil => rfl
      | cons lst rest ih =>
          simp only [List.foldl_cons]
          have h1 : getIssuesForGlobal lst name issues = issues := by
            unfold getIssuesForGlobal
            rw [hall lst (by simp)]
          rw [h1]
          exact ih issues (fun l hl => hall l (by simp [hl]))
    unfold checkGlobal
    rw [hfold]
    simp
  · intro checker tn pn ev issues hall
    have hfold : checker.clientIssueLists.foldl
        (fun acc lst => getIssuesForPropertyOrEvent lst tn pn ev acc) issues = issues := by
      obtain ⟨lists⟩ := checker
      simp only at hall ⊢
      induction lists generalizing issues with
      | nil => rfl
      | cons lst rest ih =>
          simp only [List.foldl_cons]
          rw [getIssuesForPropertyOrEvent_miss lst tn pn ev issues (hall lst (by simp))]
          exact ih issues (fun l hl => hall l (by simp [hl]))
    unfold checkPropertyOrEvent
    rw [hfold]
    simp

/-- C9 witness: a checker with one empty issue list finds nothing for the
name "x" and leaves the issues array unchanged. -/
theorem claimC9_witness :
    checkGlobal ⟨[emptyIssueList]⟩ ("x".toList) [] = ([], false) :=
  claimC9_lookup_misses.2.2.1 ⟨[emptyIssueList]⟩ ("x".toList) []
    (by intro lst hl
        simp only [List.mem_singleton] at hl
        subst hl
        rfl)

/-!  ## Claim C5 -/

/-- The property-access fallback changes neither the operand nor the
polarity of the evaluation state. -/
theorem applyPropertyAccessFallback_preserves (st : GuardEvalState) :
    (applyPropertyAccessFallback st).operand = st.operand
      ∧ (applyPropertyAccessFallback st).isNegative = st.isNegative := by
  cases hp : st.propertyName <;> cases ho : st.operand <;>
    simp [applyPropertyAccessFallback, hp, ho]

/-- The operand reported by evaluate is the one of the computed state,
whatever the required polarity. -/
theorem evaluate_operand (tc : TypeCheckerModel) (expr : Expr) (m : Option Bool) :
    (evaluate tc expr m).operand = (evalGuardState expr).operand := by
  unfold evaluate
  dsimp only
  split_ifs
  · rfl
  · exact (applyPropertyAccessFallback_preserves _).1

/-- The polarity reported by evaluate is the one of the computed state,
whatever the required polarity. -/
theorem evaluate_isNegated (tc : TypeCheckerModel) (expr : Expr) (m : Option Bool) :
    (evaluate tc expr m).isNegated = (evalGuardState expr).isNegative := by
  unfold evaluate
  dsimp only
  split_ifs
  · rfl
  · exact (applyPropertyAccessFallback_preserves _).2

/-- On a typeof-against-string-literal comparison with an equality operator,
the state computation reduces to the typeof-check analysis. -/
theorem evalGuardState_typeof (X : Expr) (s : Str) (op : JsBinOp)
    (hop : isPositiveEqualityOperator op = true ∨ isNegativeEqualityOperator op = true) :
    evalGuardState (Expr.binary op (Expr.typeofE X) (Expr.strLit s))
      = evaluateTypeofCheckExpression X s (isNegativeEqualityOperator op)
          { operand := Expr.binary op (Expr.typeofE X) (Expr.strLit s)
            propertyObj := none, propertyName := none
            isTypeof := false, isNegative := false } := by
  cases op <;> first | rfl | simp_all [isPositiveEqualityOperator, isNegativeEqualityOperator]

/-- C5: `typeof(X) ==/=== 'undefined'` is a negative guard on X;
`typeof(X) !=/!== 'undefined'` is a positive guard on X; `typeof(X)`
compared with ==/=== to any other string literal is a positive guard on X;
the same comparison with !=/!== is not recognized (the operand stays the
whole expression, no identity is resolved, polarity positive); a leading
logical NOT toggles the reported polarity. -/
theorem claimC5_typeof_guards :
    (∀ (tc : TypeCheckerModel) (X : Expr) (op : JsBinOp),
        op = JsBinOp.eqeq ∨ op = JsBinOp.eqeqeq →
        (evaluate tc (Expr.binary op (Expr.typeofE X)
            (Expr.strLit ("undefined".toList))) none).isNegated = true
          ∧ (evaluate tc (Expr.binary op (Expr.typeofE X)
              (Expr.strLit ("undefined".toList))) none).operand
            = unwrapParenthesesE X)
    ∧ (∀ (tc : TypeCheckerModel) (X : Expr) (op : JsBinOp),
        op = JsBinOp.bangEq ∨ op = JsBinOp.bangEqeq →
        (evaluate tc (Expr.binary op (Expr.typeofE X)
            (Expr.strLit ("undefined".toList))) none).isNegated = false
          ∧ (evaluate tc (Expr.binary op (Expr.typeofE X)
              (Expr.strLit ("undefined".toList))) none).operand
            = unwrapParenthesesE X)
    ∧ (∀ (tc : TypeCheckerModel) (X : Expr) (op : JsBinOp) (s : Str),
        op = JsBinOp.eqeq ∨ op = JsBinOp.eqeqeq → s ≠ "undefined".toList →
        (evaluate tc (Expr.binary op (Expr.typeofE X) (Expr.strLit s)) none).isNegated = false
          ∧ (evaluate tc (Expr.binary op (Expr.typeofE X) (Expr.strLit s)) none).operand
            = unwrapParenthesesE X)
    ∧ (∀ (tc : TypeCheckerModel) (X : Expr) (op : JsBinOp) (s : Str),
        op = JsBinOp.bangEq ∨ op = JsBinOp.bangEqeq → s ≠ "undefined".toList →
        evaluate tc (Expr.binary op (Expr.typeofE X) (Expr.strLit s)) none
          = ⟨Expr.binary op (Expr.typeofE X) (Expr.strLit s), none, false⟩)
    ∧ (∀ (tc : TypeCheckerModel) (e : Expr),
        (evaluate tc (Expr.notE e) none).isNegated
          = !(evaluate tc e none).isNegated) := by
  refine ⟨?_, ?_, ?_, ?_, ?_⟩
  · intro tc X op hop
    have hst := evalGuardState_typeof X ("undefined".toList) op
      (by rcases hop with rfl | rfl <;> simp [isPositiveEqualityOperator])
    have hneg : isNegativeEqualityOperator op = false := by
      rcases hop with rfl | rfl <;> rfl
    rw [hneg] at hst
    rw [evaluate_isNegated, evaluate_operand, hst]
    unfold evaluateTypeofCheckExpression
    rw [if_pos rfl]
    exact ⟨rfl, rfl⟩
  · intro tc X op hop
    have hst := evalGuardState_typeof X ("undefined".toList) op
      (by rcases hop with rfl | rfl <;> simp [isNegativeEqualityOperator])
    have hneg : isNegativeEqualityOperator op = true := by
      rcases hop with rfl | rfl <;> rfl
    rw [hneg] at hst
    rw [evaluate_isNegated, evaluate_operand, hst]
    unfold evaluateTypeofCheckExpression
    rw [if_pos rfl]
    exact ⟨rfl, rfl⟩
  · intro tc X op s hop hs
    have hst := evalGuardState_typeof X s op
      (by rcases hop with rfl | rfl <;> simp [isPositiveEqualityOperator])
    have hneg : isNegativeEqualityOperator op = false := by
      rcases hop with rfl | rfl <;> rfl
    rw [hneg] at hst
    rw [evaluate_isNegated, evaluate_operand, hst]
    unfold evaluateTypeofCheckExpression
    rw [if_neg hs]
    exact ⟨rfl, rfl⟩
  · intro tc X op s hop hs
    have hst := evalGuardState_typeof X s op
      (by rcases hop with rfl | rfl <;> simp [isNegativeEqualityOperator])
    have hneg : isNegativeEqualityOperator op = true := by
      rcases hop with rfl | rfl <;> rfl
    rw [hneg] at hst
    have hstate : evalGuardState (Expr.binary op (Expr.typeofE X) (Expr.strLit s))
        = { operand := Expr.binary op (Expr.typeofE X) (Expr.strLit s)
            propertyObj := none, propertyName := none
            isTypeof := false, isNegative := false } := by
      rw [hst]
      unfold evaluateTypeofCheckExpression
      rw [if_neg hs]
      rfl
    unfold evaluate
    rw [hstate]
    rfl
  · intro tc e
    rw [evaluate_isNegated, evaluate_isNegated]
    unfold evalGuardState
    have hnot : unwrapNegationsE (Expr.notE e)
        = ((unwrapNegationsE e).1, !(unwrapNegationsE e).2) := rfl
    rw [hnot]
    rcases h : unwrapNegationsE e with ⟨e1, b⟩
    dsimp only
    cases b <;> simp

/-- C5 witness: strict equality of typeof(A) with a non-"undefined" string
literal under != is not recognized as a guard. -/
theorem claimC5_witness :
    evaluate tcTrivial
        (Expr.binary JsBinOp.bangEqeq (Expr.typeofE (Expr.ident ("A".toList)))
          (Expr.strLit ("function".toList))) none
      = ⟨Expr.binary JsBinOp.bangEqeq (Expr.typeofE (Expr.ident ("A".toList)))
          (Expr.strLit ("function".toList)), none, false⟩ :=
  claimC5_typeof_guards.2.2.2.1 tcTrivial (Expr.ident ("A".toList)) JsBinOp.bangEqeq
    ("function".toList) (Or.inr rfl) (by decide)

/-!  ## Claim C6 -/

/-- The chain-operand collector evaluates, with the operator's required
polarity, exactly the leaves described by the spec's flattening. -/
theorem evaluateChainOperands_eq_map (tc : TypeCheckerModel) (op : JsBinOp) :
    ∀ e : Expr,
      evaluateChainOperands tc op e
        = (chainLeavesSpec op e).map
            (fun leaf => evaluate tc leaf (some (op == JsBinOp.ampAmp))) := by
  intro e
  induction e with
  | paren e ih =>
      simp only [evaluateChainOperands, chainLeavesSpec]
      exact ih
  | binary op2 l r ihl ihr =>
      simp only [evaluateChainOperands, chainLeavesSpec]
      split_ifs with h
      · rw [ihl, ihr, List.map_append]
      · rfl
  | ident n => rfl
  | strLit s => rfl
  | nullLit => rfl
  | undefinedKw => rfl
  | propAccess obj name ih => rfl
  | typeofE e ih => rfl
  | notE e ih => rfl
  | miscExpr t => rfl

/-- C6: evaluateChain flattens only contiguous uses of the same logical
operator, evaluating every leaf of an AND chain with required polarity
positive and every leaf of an OR chain with required polarity negative, with
the chain's negation flag set to the parity of the leading NOTs; a leaf
whose resolved polarity equals the forbidden one keeps its operand and
polarity but loses its identity, while a leaf whose polarity matches is
evaluated exactly as without the constraint. -/
theorem claimC6_chain_flattening :
    (∀ (tc : TypeCheckerModel) (e : Expr) (op : JsBinOp) (l r : Expr),
        (unwrapNegationsE e).1 = Expr.binary op l r →
        (op = JsBinOp.ampAmp ∨ op = JsBinOp.barBar) →
        evaluateChain tc e
          = GuardEvalResult.chain
              ⟨(chainLeavesSpec op (Expr.binary op l r)).map
                  (fun leaf => evaluate tc leaf (some (op == JsBinOp.ampAmp))),
                op, (unwrapNegationsE e).2⟩)
    ∧ (∀ (tc : TypeCheckerModel) (e : Expr) (b : Bool),
        b = (evaluate tc e none).isNegated →
        evaluate tc e (some b)
          = ⟨(evaluate tc e none).operand, none, (evaluate tc e none).isNegated⟩)
    ∧ (∀ (tc : TypeCheckerModel) (e : Expr) (b : Bool),
        b ≠ (evaluate tc e none).isNegated →
        evaluate tc e (some b) = evaluate tc e none) := by
  refine ⟨?_, ?_, ?_⟩
  · intro tc e op l r hinner hop
    unfold evaluateChain
    rcases hu : unwrapNegationsE e with ⟨inner, bneg⟩
    rw [hu] at hinner
    dsimp only at hinner ⊢
    subst hinner
    dsimp only
    rw [if_pos hop]
    rw [evaluateChainOperands_eq_map]
  · intro tc e b hb
    rw [evaluate_operand, evaluate_isNegated] at *
    unfold evaluate
    dsimp only
    rw [if_pos (by rw [hb])]
  · intro tc e b hb
    rw [evaluate_isNegated] at hb
    unfold evaluate
    dsimp only
    rw [if_neg (by simpa using hb), if_neg (by simp)]

/-- C6 witness: the flattening applied to the AND chain `A && B`. -/
theorem claimC6_witness :
    evaluateChain tcTrivial
        (Expr.binary JsBinOp.ampAmp (Expr.ident ("A".toList)) (Expr.ident ("B".toList)))
      = GuardEvalResult.chain
          ⟨(chainLeavesSpec JsBinOp.ampAmp
              (Expr.binary JsBinOp.ampAmp (Expr.ident ("A".toList))
                (Expr.ident ("B".toList)))).map
              (fun leaf => evaluate tcTrivial leaf (some (JsBinOp.ampAmp == JsBinOp.ampAmp))),
            JsBinOp.ampAmp,
            (unwrapNegationsE
              (Expr.binary JsBinOp.ampAmp (Expr.ident ("A".toList))
                (Expr.ident ("B".toList)))).2⟩ :=
  claimC6_chain_flattening.1 tcTrivial _ JsBinOp.ampAmp _ _ rfl (Or.inl rfl)

/-!  ## Claim C8: digit-string lemmas -/

/-- With sufficient fuel, the digit list is nonempty and all digit values
are below ten. -/
theorem natDigitsRevFuel_facts :
    ∀ (fuel n : Nat), n < fuel →
      natDigitsRevFuel fuel n ≠ [] ∧ ∀ d ∈ natDigitsRevFuel fuel n, d < 10 := by
  intro fuel
  induction fuel with
  | zero => intro n hn; omega
  | succ fuel ih =>
      intro n hn
      unfold natDigitsRevFuel
      split_ifs with h
      · exact ⟨by simp, by intro d hd; simp at hd; omega⟩
      · have hrec := ih (n / 10) (by omega)
        refine ⟨by simp, ?_⟩
        intro d hd
        simp only [List.mem_cons] at hd
        rcases hd with rfl | hd
        · omega
        · exact hrec.2 d hd

/-- Horner evaluation of the reversed digit list. -/
theorem natDigitsRevFuel_foldl :
    ∀ (fuel n : Nat), n < fuel → ∀ acc,
      List.foldl (fun a d => a * 10 + d) acc ((natDigitsRevFuel fuel n).reverse)
        = acc * 10 ^ (natDigitsRevFuel fuel n).length + n := by
  intro fuel
  induction fuel with
  | zero => intro n hn; omega
  | succ fuel ih =>
      intro n hn acc
      unfold natDigitsRevFuel
      split_ifs with h
      · simp [pow_succ]
      · have hrec := ih (n / 10) (by omega)
        simp only [List.reverse_cons, List.foldl_append, List.length_cons]
        rw [hrec acc]
        simp only [List.foldl_cons, List.foldl_nil, List.length_reverse]
        rw [pow_succ, ← mul_assoc]
        have hdm := Nat.div_add_mod n 10
        set m := acc * 10 ^ (natDigitsRevFuel fuel (n / 10)).length with hm
        omega

/-- The digit list of n is nonempty with digit values below ten. -/
theorem natDigitsRev_facts (n : Nat) :
    natDigitsRev n ≠ [] ∧ ∀ d ∈ natDigitsRev n, d < 10 :=
  natDigitsRevFuel_facts (n + 1) n (by omega)

/-- Character-level facts about the decimal digit characters. -/
theorem digitChar_facts (d : Nat) (hd : d < 10) :
    isDigitCh (digitChar d) = true
      ∧ isWsChar (digitChar d) = false
      ∧ charToDigit (digitChar d) = d
      ∧ digitChar d ≠ '-' ∧ digitChar d ≠ '+' ∧ digitChar d ≠ '.'
      ∧ digitChar d ≠ '*' ∧ digitChar d ≠ '<' ∧ digitChar d ≠ '>'
      ∧ digitChar d ≠ '=' := by
  interval_cases d <;> exact ⟨rfl, rfl, rfl, by decide, by decide, by decide,
    by decide, by decide, by decide, by decide⟩

/-- Every character of numToChars is a digit character of value below ten. -/
theorem numToChars_mem (n : Nat) (c : Char) (hc : c ∈ numToChars n) :
    ∃ d, d < 10 ∧ c = digitChar d := by
  unfold numToChars at hc
  rw [List.mem_map] at hc
  obtain ⟨d, hd, rfl⟩ := hc
  rw [List.mem_reverse] at hd
  exact ⟨d, (natDigitsRev_facts n).2 d hd, rfl⟩

/-- numToChars is never empty. -/
theorem numToChars_ne_nil (n : Nat) : numToChars n ≠ [] := by
  unfold numToChars
  intro h
  simp only [List.map_eq_nil_iff, List.reverse_eq_nil_iff] at h
  exact (natDigitsRev_facts n).1 h

/-- Decimal parsing inverts decimal printing. -/
theorem digitsToNat_numToChars (n : Nat) : digitsToNat (numToChars n) = n := by
  unfold digitsToNat numToChars
  rw [List.foldl_map]
  have hfold : ∀ (ds : List Nat), (∀ d ∈ ds, d < 10) → ∀ acc,
      List.foldl (fun x d => x * 10 + charToDigit (digitChar d)) acc ds
        = List.foldl (fun a d => a * 10 + d) acc ds := by
    intro ds
    induction ds with
    | nil => intro _ _; rfl
    | cons d rest ih =>
        intro hall acc
        simp only [List.foldl_cons]
        rw [(digitChar_facts d (hall d (by simp))).2.2.1]
        exact ih (fun x hx => hall x (by simp [hx])) _
  rw [hfold _ (by
    intro d hd
    rw [List.mem_reverse] at hd
    exact (natDigitsRev_facts n).2 d hd) 0]
  unfold natDigitsRev
  rw [natDigitsRevFuel_foldl (n + 1) n (by omega) 0]
  simp

/-- takeWhile/dropWhile at an explicit boundary. -/
theorem span_boundary (p : Char → Bool) (A B : Str) (x : Char)
    (hA : ∀ c ∈ A, p c = true) (hx : p x = false) :
    (A ++ x :: B).takeWhile p = A ∧ (A ++ x :: B).dropWhile p = x :: B := by
  induction A with
  | nil => simp [List.takeWhile_cons, List.dropWhile_cons, hx]
  | cons a A ih =>
      have hpa : p a = true := hA a (by simp)
      have hrec := ih (fun c hc => hA c (by simp [hc]))
      simp only [List.cons_append, List.takeWhile_cons, List.dropWhile_cons, hpa]
      simp only [if_true]
      exact ⟨by rw [hrec.1], hrec.2⟩

/-- parseDigitsPrefix inverts decimal printing. -/
theorem parseDigitsPrefix_numToChars (n : Nat) :
    parseDigitsPrefix (numToChars n) = some n := by
  unfold parseDigitsPrefix
  have htake : (numToChars n).takeWhile isDigitCh = numToChars n :=
    List.takeWhile_eq_self_iff.2 (by
      intro c hc
      obtain ⟨d, hd, rfl⟩ := numToChars_mem n c hc
      exact (digitChar_facts d hd).1)
  dsimp only
  rw [htake]
  rcases hnc : numToChars n with _ | ⟨c, rest⟩
  · exact absurd hnc (numToChars_ne_nil n)
  · rw [← hnc]
    have hemp : (numToChars n).isEmpty = false := by
      rw [hnc]; rfl
    rw [hemp]
    simp only [Bool.false_eq_true, if_false]
    rw [digitsToNat_numToChars]

/-- parseIntJS inverts decimal printing. -/
theorem parseIntJS_numToChars (n : Nat) :
    parseIntJS (numToChars n) = some (n : Int) := by
  rcases hnc : numToChars n with _ | ⟨c, rest⟩
  · exact absurd hnc (numToChars_ne_nil n)
  · have hcmem : c ∈ numToChars n := by rw [hnc]; simp
    obtain ⟨d, hd, hcd⟩ := numToChars_mem n c hcmem
    have hfacts := digitChar_facts d hd
    have hdrop : List.dropWhile isWsChar (c :: rest) = c :: rest := by
      rw [List.dropWhile_cons, hcd, hfacts.2.1]
      simp
    unfold parseIntJS
    simp only [hdrop]
    rw [if_neg (by rw [hcd]; exact hfacts.2.2.2.1),
        if_neg (by rw [hcd]; exact hfacts.2.2.2.2.1)]
    rw [← hnc, parseDigitsPrefix_numToChars]
    rfl

/-- Version.create at in-range natural components. -/
theorem create_natCast (a b : Nat) (ha : a ≤ VERSION_MAX) (hb : b ≤ VERSION_MAX) :
    Version.create (a : Int) (b : Int) = some ⟨a, b⟩ := by
  unfold Version.create
  rw [if_pos (by omega)]
  simp

/-- Version._fromString on a bare major string. -/
theorem fromStringAux_numToChars (m : Nat) (hm : m ≤ VERSION_MAX) (dflt : Bool) :
    Version.fromStringAux (numToChars m) dflt
      = some ⟨m, if dflt then VERSION_MAX else 0⟩ := by
  unfold Version.fromStringAux
  have hpost : (numToChars m).dropWhile (· ≠ '.') = [] :=
    List.dropWhile_eq_nil_iff.2 (by
      intro c hc
      obtain ⟨d, hd, rfl⟩ := numToChars_mem m c hc
      simp [(digitChar_facts d hd).2.2.2.2.2.1])
  dsimp only
  rw [hpost]
  rw [parseIntJS_numToChars]
  dsimp only
  cases dflt
  · exact create_natCast m 0 hm (by unfold VERSION_MAX; omega)
  · have := create_natCast m VERSION_MAX hm (le_refl _)
    simpa using this

/-- Version._fromString on an exact "major.minor" string. -/
theorem fromStringAux_toChars (v : Version)
    (hv : v.major ≤ VERSION_MAX ∧ v.minor ≤ VERSION_MAX) (dflt : Bool) :
    Version.fromStringAux (Version.toChars v) dflt = some v := by
  obtain ⟨maj, mnr⟩ := v
  simp only at hv
  have hshape : Version.toChars ⟨maj, mnr⟩
      = numToChars maj ++ '.' :: numToChars mnr := by
    unfold Version.toChars
    simp
  have hbound := span_boundary (· ≠ '.') (numToChars maj) (numToChars mnr) '.'
    (by
      intro c hc
      obtain ⟨d, hd, rfl⟩ := numToChars_mem maj c hc
      simp [(digitChar_facts d hd).2.2.2.2.2.1])
    (by simp)
  unfold Version.fromStringAux
  rw [hshape]
  dsimp only
  rw [hbound.2, hbound.1]
  dsimp only
  rw [parseIntJS_numToChars, parseIntJS_numToChars]
  dsimp only
  exact create_natCast maj mnr hv.1 hv.2

/-- Every character of a version's string form is a dot or a digit. -/
theorem toChars_mem (v : Version) (c : Char) (hc : c ∈ Version.toChars v) :
    c = '.' ∨ ∃ d, d < 10 ∧ c = digitChar d := by
  unfold Version.toChars at hc
  simp only [List.append_assoc, List.mem_append, List.mem_cons, List.mem_singleton,
    List.not_mem_nil, or_false] at hc
  rcases hc with hc | hc | hc
  · exact Or.inr (numToChars_mem _ c hc)
  · exact Or.inl hc
  · exact Or.inr (numToChars_mem _ c hc)

/-- numToChars is never the string "*". -/
theorem numToChars_ne_star (m : Nat) : numToChars m ≠ [ '*' ] := by
  intro h
  have hmem : '*' ∈ numToChars m := by rw [h]; simp
  obtain ⟨d, hd, hcd⟩ := numToChars_mem m '*' hmem
  exact (digitChar_facts d hd).2.2.2.2.2.2.1 hcd.symm

/-- A version's string form is never "*". -/
theorem toChars_ne_star (v : Version) : Version.toChars v ≠ [ '*' ] := by
  intro h
  have hlen := congrArg List.length h
  unfold Version.toChars at hlen
  simp only [List.length_append, List.length_cons, List.length_singleton] at hlen
  have h1 := List.length_pos.2 (numToChars_ne_nil v.major)
  have h2 := List.length_pos.2 (numToChars_ne_nil v.minor)
  omega

/-- A two-character take of a digit string never matches a
comparison-operator prefix. -/
theorem numToChars_take2_ne (m : Nat) (c1 c2 : Char) (hc1 : c1 = '<' ∨ c1 = '>') :
    (numToChars m).take 2 ≠ [c1, c2] := by
  rcases h : numToChars m with _ | ⟨c, rest⟩
  · exact absurd h (numToChars_ne_nil m)
  · have hcmem : c ∈ numToChars m := by rw [h]; simp
    obtain ⟨d, hd, rfl⟩ := numToChars_mem m c hcmem
    have hf := digitChar_facts d hd
    intro hcontra
    simp only [List.take_succ_cons, List.cons.injEq] at hcontra
    rcases hc1 with rfl | rfl
    · exact hf.2.2.2.2.2.2.2.1 hcontra.1
    · exact hf.2.2.2.2.2.2.2.2.1 hcontra.1

/-- A two-character take of a version string never matches a
comparison-operator prefix. -/
theorem toChars_take2_ne (v : Version) (c1 c2 : Char) (hc1 : c1 = '<' ∨ c1 = '>') :
    (Version.toChars v).take 2 ≠ [c1, c2] := by
  rcases h : Version.toChars v with _ | ⟨c, rest⟩
  · have := congrArg List.length h
    unfold Version.toChars at this
    simp only [List.length_append, List.length_cons, List.length_nil] at this
    have h1 := List.length_pos.2 (numToChars_ne_nil v.major)
    omega
  · have hcmem : c ∈ Version.toChars v := by rw [h]; simp
    rcases toChars_mem v c hcmem with rfl | ⟨d, hd, rfl⟩
    · intro hcontra
      simp only [List.take_succ_cons, List.cons.injEq] at hcontra
      rcases hc1 with rfl | rfl <;> exact absurd hcontra.1 (by decide)
    · have hf := digitChar_facts d hd
      intro hcontra
      simp only [List.take_succ_cons, List.cons.injEq] at hcontra
      rcases hc1 with rfl | rfl
      · exact hf.2.2.2.2.2.2.2.1 hcontra.1
      · exact hf.2.2.2.2.2.2.2.2.1 hcontra.1

/-- Digit strings contain no dash. -/
theorem numToChars_no_dash (m : Nat) :
    List.dropWhile (fun c => c ≠ '-') (numToChars m) = [] := by
  apply List.dropWhile_eq_nil_iff.2
  intro c hc
  obtain ⟨d, hd, rfl⟩ := numToChars_mem m c hc
  simp [(digitChar_facts d hd).2.2.2.1]

/-- Version strings contain no dash. -/
theorem toChars_no_dash (v : Version) :
    List.dropWhile (fun c => c ≠ '-') (Version.toChars v) = [] := by
  apply List.dropWhile_eq_nil_iff.2
  intro c hc
  rcases toChars_mem v c hc with rfl | ⟨d, hd, rfl⟩
  · simp
  · simp [(digitChar_facts d hd).2.2.2.1]

/-- Digit strings contain no dot. -/
theorem numToChars_no_dot (m : Nat) :
    (numToChars m).all (fun c => c ≠ '.') = true := by
  rw [List.all_eq_true]
  intro c hc
  obtain ⟨d, hd, rfl⟩ := numToChars_mem m c hc
  simp [(digitChar_facts d hd).2.2.2.2.2.1]

/-- Round trip for a bare-major range string. -/
theorem rangeFromString_bare (m : Nat) (hm : m ≤ VERSION_MAX) :
    Version.rangeFromString (numToChars m)
      = some (⟨m, 0⟩, ⟨m, VERSION_MAX⟩) := by
  have hcr0 : Version.create (m : Int) 0 = some ⟨m, 0⟩ := by
    have := create_natCast m 0 hm (by unfold VERSION_MAX; omega)
    simpa using this
  have hcr1 : Version.create (Int.ofNat m) (Int.ofNat VERSION_MAX)
      = some ⟨m, VERSION_MAX⟩ := by
    have := create_natCast m VERSION_MAX hm (le_refl _)
    simpa [Int.ofNat_eq_natCast] using this
  have haux : Version.rangeFromStringAux (numToChars m)
      = some (⟨m, 0⟩, ⟨m, VERSION_MAX⟩) := by
    unfold Version.rangeFromStringAux
    simp only [numToChars_no_dash]
    rw [if_neg (numToChars_take2_ne m '<' '=' (Or.inl rfl)),
        if_neg (numToChars_take2_ne m '>' '=' (Or.inr rfl)),
        if_pos (numToChars_no_dot m)]
    rw [parseIntJS_numToChars]
    dsimp only
    rw [hcr0]
    dsimp only
    rw [hcr1]
  unfold Version.rangeFromString
  rw [if_neg (numToChars_ne_star m), haux]
  dsimp only
  rw [if_neg (by
    have : Version.compare ⟨m, 0⟩ ⟨m, VERSION_MAX⟩ ≤ 0 :=
      (Version.compare_nonpos_iff _ _).2 (by
        right
        refine ⟨rfl, ?_⟩
        simp)
    omega)]

/-- Round trip for "<=" with a bare major. -/
theorem rangeFromString_le_bare (m : Nat) (hm : m ≤ VERSION_MAX) :
    Version.rangeFromString ('<' :: '=' :: numToChars m)
      = some (Version.minVal, ⟨m, VERSION_MAX⟩) := by
  have hnodash : List.dropWhile (fun c => c ≠ '-') ('<' :: '=' :: numToChars m) = [] := by
    rw [List.dropWhile_cons, if_pos (by decide), List.dropWhile_cons, if_pos (by decide)]
    exact numToChars_no_dash m
  have hfs : Version.fromStringAux (numToChars m) true = some ⟨m, VERSION_MAX⟩ := by
    have := fromStringAux_numToChars m hm true
    simpa using this
  have haux : Version.rangeFromStringAux ('<' :: '=' :: numToChars m)
      = some (Version.minVal, ⟨m, VERSION_MAX⟩) := by
    unfold Version.rangeFromStringAux
    simp only [hnodash]
    rw [show List.take 2 ('<' :: '=' :: numToChars m) = [ '<', '=' ] from rfl]
    rw [if_pos rfl]
    rw [show List.drop 2 ('<' :: '=' :: numToChars m) = numToChars m from rfl]
    rw [hfs]
  unfold Version.rangeFromString
  rw [if_neg (by simp), haux]
  dsimp only
  rw [if_neg (by
    have hc : Version.compare Version.minVal ⟨m, VERSION_MAX⟩ ≤ 0 := by
      rw [Version.compare_nonpos_iff]
      show 0 < m ∨ (0 = m ∧ 0 ≤ VERSION_MAX)
      omega
    omega)]

/-- Round trip for ">=" with a bare major. -/
theorem rangeFromString_ge_bare (m : Nat) (hm : m ≤ VERSION_MAX) :
    Version.rangeFromString ('>' :: '=' :: numToChars m)
      = some (⟨m, 0⟩, Version.maxVal) := by
  have hnodash : List.dropWhile (fun c => c ≠ '-') ('>' :: '=' :: numToChars m) = [] := by
    rw [List.dropWhile_cons, if_pos (by decide), List.dropWhile_cons, if_pos (by decide)]
    exact numToChars_no_dash m
  have hfs : Version.fromStringAux (numToChars m) false = some ⟨m, 0⟩ := by
    have := fromStringAux_numToChars m hm false
    simpa using this
  have haux : Version.rangeFromStringAux ('>' :: '=' :: numToChars m)
      = some (⟨m, 0⟩, Version.maxVal) := by
    unfold Version.rangeFromStringAux
    simp only [hnodash]
    rw [show List.take 2 ('>' :: '=' :: numToChars m) = [ '>', '=' ] from rfl]
    rw [if_neg (by decide), if_pos rfl]
    rw [show List.drop 2 ('>' :: '=' :: numToChars m) = numToChars m from rfl]
    rw [hfs]
  unfold Version.rangeFromString
  rw [if_neg (by simp), haux]
  dsimp only
  rw [if_neg (by
    have hc : Version.compare ⟨m, 0⟩ Version.maxVal ≤ 0 := by
      rw [Version.compare_nonpos_iff]
      show m < VERSION_MAX ∨ (m = VERSION_MAX ∧ 0 ≤ VERSION_MAX)
      omega
    omega)]

/-- Round trip for "<=" with an exact version. -/
theorem rangeFromString_le_toChars (v : Version)
    (hv : v.major ≤ VERSION_MAX ∧ v.minor ≤ VERSION_MAX) :
    Version.rangeFromString ('<' :: '=' :: Version.toChars v)
      = some (Version.minVal, v) := by
  have hnodash : List.dropWhile (fun c => c ≠ '-') ('<' :: '=' :: Version.toChars v) = [] := by
    rw [List.dropWhile_cons, if_pos (by decide), List.dropWhile_cons, if_pos (by decide)]
    exact toChars_no_dash v
  have hfs := fromStringAux_toChars v hv true
  have haux : Version.rangeFromStringAux ('<' :: '=' :: Version.toChars v)
      = some (Version.minVal, v) := by
    unfold Version.rangeFromStringAux
    simp only [hnodash]
    rw [show List.take 2 ('<' :: '=' :: Version.toChars v) = [ '<', '=' ] from rfl]
    rw [if_pos rfl]
    rw [show List.drop 2 ('<' :: '=' :: Version.toChars v) = Version.toChars v from rfl]
    rw [hfs]
  unfold Version.rangeFromString
  rw [if_neg (by simp), haux]
  dsimp only
  rw [if_neg (by
    have hc : Version.compare Version.minVal v ≤ 0 := by
      rw [Version.compare_nonpos_iff]
      show 0 < v.major ∨ (0 = v.major ∧ 0 ≤ v.minor)
      omega
    omega)]

/-- Round trip for ">=" with an exact version. -/
theorem rangeFromString_ge_toChars (v : Version)
    (hv : v.major ≤ VERSION_MAX ∧ v.minor ≤ VERSION_MAX) :
    Version.rangeFromString ('>' :: '=' :: Version.toChars v)
      = some (v, Version.maxVal) := by
  have hnodash : List.dropWhile (fun c => c ≠ '-') ('>' :: '=' :: Version.toChars v) = [] := by
    rw [List.dropWhile_cons, if_pos (by decide), List.dropWhile_cons, if_pos (by decide)]
    exact toChars_no_dash v
  have hfs := fromStringAux_toChars v hv false
  have haux : Version.rangeFromStringAux ('>' :: '=' :: Version.toChars v)
      = some (v, Version.maxVal) := by
    unfold Version.rangeFromStringAux
    simp only [hnodash]
    rw [show List.take 2 ('>' :: '=' :: Version.toChars v) = [ '>', '=' ] from rfl]
    rw [if_neg (by decide), if_pos rfl]
    rw [show List.drop 2 ('>' :: '=' :: Version.toChars v) = Version.toChars v from rfl]
    rw [hfs]
  unfold Version.rangeFromString
  rw [if_neg (by simp), haux]
  dsimp only
  rw [if_neg (by
    have hc : Version.compare v Version.maxVal ≤ 0 := by
      rw [Version.compare_nonpos_iff]
      show v.major < VERSION_MAX ∨ (v.major = VERSION_MAX ∧ v.minor ≤ VERSION_MAX)
      omega
    omega)]

/-- Round trip for an exact "major.minor" string. -/
theorem rangeFromString_toChars (v : Version)
    (hv : v.major ≤ VERSION_MAX ∧ v.minor ≤ VERSION_MAX) :
    Version.rangeFromString (Version.toChars v) = some (v, v) := by
  have hdot : ¬((Version.toChars v).all (fun c => c ≠ '.') = true) := by
    rw [List.all_eq_true]
    intro hall
    have hmem : '.' ∈ Version.toChars v := by
      unfold Version.toChars
      simp
    have := hall '.' hmem
    simp at this
  have hfs := fromStringAux_toChars v hv false
  have haux : Version.rangeFromStringAux (Version.toChars v) = some (v, v) := by
    unfold Version.rangeFromStringAux
    simp only [toChars_no_dash]
    rw [if_neg (toChars_take2_ne v '<' '=' (Or.inl rfl)),
        if_neg (toChars_take2_ne v '>' '=' (Or.inr rfl)),
        if_neg hdot]
    unfold Version.fromString
    rw [hfs]
  unfold Version.rangeFromString
  rw [if_neg (toChars_ne_star v), haux]
  dsimp only
  rw [if_neg (by
    have hc : Version.compare v v = 0 := (Version.compare_eq_zero_iff v v).2 rfl
    omega)]

/-- Round trip for a bare-major dash range. -/
theorem rangeFromString_dash_bare (a b : Nat)
    (ha : a ≤ VERSION_MAX) (hb : b ≤ VERSION_MAX) (hab : a ≤ b) :
    Version.rangeFromString (numToChars a ++ '-' :: numToChars b)
      = some (⟨a, 0⟩, ⟨b, VERSION_MAX⟩) := by
  have hstar : numToChars a ++ '-' :: numToChars b ≠ [ '*' ] := by
    intro h
    have hlen := congrArg List.length h
    simp only [List.length_append, List.length_cons, List.length_singleton,
      List.length_nil] at hlen
    have h1 := List.length_pos.2 (numToChars_ne_nil a)
    have h2 := List.length_pos.2 (numToChars_ne_nil b)
    omega
  have hspan := span_boundary (fun c => c ≠ '-') (numToChars a) (numToChars b) '-'
    (by
      intro c hc
      obtain ⟨d, hd, rfl⟩ := numToChars_mem a c hc
      simp [(digitChar_facts d hd).2.2.2.1])
    (by simp)
  have hfs1 : Version.fromStringAux (numToChars a) false = some ⟨a, 0⟩ := by
    have := fromStringAux_numToChars a ha false
    simpa using this
  have hfs2 : Version.fromStringAux (numToChars b) true = some ⟨b, VERSION_MAX⟩ := by
    have := fromStringAux_numToChars b hb true
    simpa using this
  have haux : Version.rangeFromStringAux (numToChars a ++ '-' :: numToChars b)
      = some (⟨a, 0⟩, ⟨b, VERSION_MAX⟩) := by
    unfold Version.rangeFromStringAux
    simp only [hspan.1, hspan.2]
    rw [hfs1, hfs2]
  unfold Version.rangeFromString
  rw [if_neg hstar, haux]
  dsimp only
  rw [if_neg (by
    have hc : Version.compare ⟨a, 0⟩ ⟨b, VERSION_MAX⟩ ≤ 0 := by
      rw [Version.compare_nonpos_iff]
      show a < b ∨ (a = b ∧ 0 ≤ VERSION_MAX)
      omega
    omega)]

/-- Round trip for an exact-version dash range. -/
theorem rangeFromString_dash_toChars (u v : Version)
    (hu : u.major ≤ VERSION_MAX ∧ u.minor ≤ VERSION_MAX)
    (hv : v.major ≤ VERSION_MAX ∧ v.minor ≤ VERSION_MAX)
    (huv : Version.compare u v ≤ 0) :
    Version.rangeFromString (Version.toChars u ++ '-' :: Version.toChars v)
      = some (u, v) := by
  have hstar : Version.toChars u ++ '-' :: Version.toChars v ≠ [ '*' ] := by
    intro h
    have hlen := congrArg List.length h
    simp only [List.length_append, List.length_cons, List.length_singleton,
      List.length_nil] at hlen
    have h1 : 0 < (Version.toChars u).length := by
      unfold Version.toChars
      simp only [List.length_append, List.length_cons, List.length_singleton,
        List.length_nil]
      omega
    have h2 : 0 < (Version.toChars v).length := by
      unfold Version.toChars
      simp only [List.length_append, List.length_cons, List.length_singleton,
        List.length_nil]
      omega
    omega
  have hspan := span_boundary (fun c => c ≠ '-') (Version.toChars u) (Version.toChars v) '-'
    (by
      intro c hc
      rcases toChars_mem u c hc with rfl | ⟨d, hd, rfl⟩
      · simp
      · simp [(digitChar_facts d hd).2.2.2.1])
    (by simp)
  have hfs1 := fromStringAux_toChars u hu false
  have hfs2 := fromStringAux_toChars v hv true
  have haux : Version.rangeFromStringAux (Version.toChars u ++ '-' :: Version.toChars v)
      = some (u, v) := by
    unfold Version.rangeFromStringAux
    simp only [hspan.1, hspan.2]
    rw [hfs1, hfs2]
  unfold Version.rangeFromString
  rw [if_neg hstar, haux]
  dsimp only
  rw [if_neg (by omega)]

/-- Round trip for the full-range string. -/
theorem rangeFromString_star :
    Version.rangeFromString [ '*' ] = some (Version.minVal, Version.maxVal) := rfl

/-- Versions built by Version.create satisfy the component bounds. -/
theorem create_bounds (a b : Int) (v : Version) (h : Version.create a b = some v) :
    v.major ≤ VERSION_MAX ∧ v.minor ≤ VERSION_MAX := by
  unfold Version.create at h
  split_ifs at h with hc
  all_goals
    first
      | (replace h := Option.some.inj h
         subst h
         dsimp only
         omega)
      | simp at h

/-- Versions parsed by Version._fromString satisfy the component bounds. -/
theorem fromStringAux_bounds (s : Str) (dflt : Bool) (v : Version)
    (h : Version.fromStringAux s dflt = some v) :
    v.major ≤ VERSION_MAX ∧ v.minor ≤ VERSION_MAX := by
  simp only [Version.fromStringAux] at h
  split at h
  · split at h
    · simp at h
    · exact create_bounds _ _ _ h
  · split at h
    · exact create_bounds _ _ _ h
    · simp at h

/-- Version pairs parsed by the range parser satisfy the component bounds. -/
theorem rangeFromStringAux_bounds (s : Str) (mn mx : Version)
    (h : Version.rangeFromStringAux s = some (mn, mx)) :
    (mn.major ≤ VERSION_MAX ∧ mn.minor ≤ VERSION_MAX)
      ∧ (mx.major ≤ VERSION_MAX ∧ mx.minor ≤ VERSION_MAX) := by
  simp only [Version.rangeFromStringAux] at h
  split at h
  · split at h
    · rename_i hmn hmx
      replace h := Option.some.inj h
      rw [Prod.mk.injEq] at h
      obtain ⟨rfl, rfl⟩ := h
      exact ⟨fromStringAux_bounds _ _ _ (by assumption),
        fromStringAux_bounds _ _ _ (by assumption)⟩
    · simp at h
  · split_ifs at h
    · split at h
      · replace h := Option.some.inj h
        rw [Prod.mk.injEq] at h
        obtain ⟨rfl, rfl⟩ := h
        refine ⟨⟨by simp [Version.minVal], by simp [Version.minVal]⟩, ?_⟩
        exact fromStringAux_bounds _ _ _ (by assumption)
      · simp at h
    · split at h
      · replace h := Option.some.inj h
        rw [Prod.mk.injEq] at h
        obtain ⟨rfl, rfl⟩ := h
        refine ⟨?_, ⟨le_refl _, le_refl _⟩⟩
        exact fromStringAux_bounds _ _ _ (by assumption)
      · simp at h
    · split at h
      · simp at h
      · split at h
        · simp at h
        · split at h
          · simp at h
          · replace h := Option.some.inj h
            rw [Prod.mk.injEq] at h
            obtain ⟨rfl, rfl⟩ := h
            exact ⟨create_bounds _ _ _ (by assumption),
              create_bounds _ _ _ (by assumption)⟩
    · split at h
      · rename_i v hv
        replace h := Option.some.inj h
        rw [Prod.mk.injEq] at h
        obtain ⟨rfl, rfl⟩ := h
        unfold Version.fromString at hv
        have hb := fromStringAux_bounds s false v hv
        exact ⟨hb, hb⟩
      · simp at h

/-- Version pairs produced by Version.rangeFromString are bounded and
ordered. -/
theorem rangeFromString_bounds (s : Str) (mn mx : Version)
    (h : Version.rangeFromString s = some (mn, mx)) :
    (mn.major ≤ VERSION_MAX ∧ mn.minor ≤ VERSION_MAX)
      ∧ (mx.major ≤ VERSION_MAX ∧ mx.minor ≤ VERSION_MAX)
      ∧ Version.compare mn mx ≤ 0 := by
  simp only [Version.rangeFromString] at h
  split_ifs at h with hstar
  · replace h := Option.some.inj h
    rw [Prod.mk.injEq] at h
    obtain ⟨rfl, rfl⟩ := h
    refine ⟨⟨by simp [Version.minVal], by simp [Version.minVal]⟩,
      ⟨le_refl _, le_refl _⟩, ?_⟩
    rw [Version.compare_nonpos_iff]
    show 0 < VERSION_MAX ∨ (0 = VERSION_MAX ∧ 0 ≤ VERSION_MAX)
    unfold VERSION_MAX
    omega
  · revert h
    rcases haux2 : Version.rangeFromStringAux s with _ | ⟨mn2, mx2⟩
    · intro h
      simp at h
    · intro h
      dsimp only at h
      split_ifs at h with hgt
      replace h := Option.some.inj h
      rw [Prod.mk.injEq] at h
      obtain ⟨rfl, rfl⟩ := h
      have hb := rangeFromStringAux_bounds s mn2 mx2 haux2
      exact ⟨hb.1, hb.2, by omega⟩

/-- The central round trip: formatting a bounded ordered version pair and
re-parsing it yields the same pair. -/
theorem rangeToString_roundTrip (mn mx : Version)
    (hmn : mn.major ≤ VERSION_MAX ∧ mn.minor ≤ VERSION_MAX)
    (hmx : mx.major ≤ VERSION_MAX ∧ mx.minor ≤ VERSION_MAX)
    (hle : Version.compare mn mx ≤ 0) :
    Version.rangeFromString (Version.rangeToString mn mx) = some (mn, mx) := by
  obtain ⟨a1, a2⟩ := mn
  obtain ⟨b1, b2⟩ := mx
  simp only at hmn hmx
  unfold Version.rangeToString
  split_ifs with h1 h2 h3 h4
  · have heq := (Version.compare_eq_zero_iff _ _).1 h1
    rw [Version.mk.injEq] at heq
    obtain ⟨rfl, rfl⟩ := heq
    exact rangeFromString_toChars ⟨a1, a2⟩ hmn
  · simp only at h2
    obtain ⟨rfl, rfl⟩ := h2
    unfold versionMajorRangeToString
    simp only
    split_ifs with g1 g2 g3 g4
    · subst g1
      exact rangeFromString_bare a1 hmn.1
    · subst g2
      subst g3
      exact rangeFromString_star
    · subst g2
      exact rangeFromString_le_bare b1 hmx.1
    · subst g4
      exact rangeFromString_ge_bare a1 hmn.1
    · have hab : a1 ≤ b1 := by
        rw [Version.compare_nonpos_iff] at hle
        simp only at hle
        omega
      rw [List.append_assoc, List.singleton_append]
      exact rangeFromString_dash_bare a1 b1 hmn.1 hmx.1 hab
  · have hmn0 : a1 = 0 ∧ a2 = 0 := by
      rw [Version.compare_nonpos_iff] at h3
      simp only [Version.minVal] at h3
      omega
    obtain ⟨rfl, rfl⟩ := hmn0
    exact rangeFromString_le_toChars ⟨b1, b2⟩ hmx
  · have hmx1 : b1 = VERSION_MAX ∧ b2 = VERSION_MAX := by
      by_contra hcon
      have hlt : Version.compare ⟨b1, b2⟩ Version.maxVal < 0 := by
        rw [Version.compare_neg_iff]
        show b1 < VERSION_MAX ∨ (b1 = VERSION_MAX ∧ b2 < VERSION_MAX)
        omega
      omega
    obtain ⟨rfl, rfl⟩ := hmx1
    exact rangeFromString_ge_toChars ⟨a1, a2⟩ hmn
  · rw [List.append_assoc, List.singleton_append]
    exact rangeFromString_dash_toChars ⟨a1, a2⟩ ⟨b1, b2⟩ hmn hmx hle

/-- C8: parsing a valid range string and formatting the resulting pair
yields a string that re-parses to the same [min, max] pair. -/
theorem claimC8_range_roundtrip (s : Str) (mn mx : Version)
    (h : Version.rangeFromString s = some (mn, mx)) :
    Version.rangeFromString (Version.rangeToString mn mx) = some (mn, mx) := by
  have hb := rangeFromString_bounds s mn mx h
  exact rangeToString_roundTrip mn mx hb.1 hb.2.1 hb.2.2

/-- C8 witness: the round trip applied to the range string "2-5". -/
theorem claimC8_witness :
    Version.rangeFromString (Version.rangeToString (mkV 2) ⟨5, VERSION_MAX⟩)
      = some (mkV 2, ⟨5, VERSION_MAX⟩) :=
  claimC8_range_roundtrip ("2-5".toList) (mkV 2) ⟨5, VERSION_MAX⟩ (by decide)
